import Mathlib

/-!
Shallow embedding of the condition grammar engine (`backend/rule_parser.py`),
the hit-policy decision engine (`backend/engine.py`) and the attribute
resolver (`backend/resolver_service.py`) of the enterprise rules engine.

Python strings are modelled as `List Char`; Python scalars (None, bool, int,
float, str, list, dict) are modelled by the inductive type `Value`.  Python
floats are modelled as exact decimal numbers `Dec` (an integer mantissa with
a power-of-ten denominator), so every numeric comparison in the source is an
exact integer comparison here.  Database sessions and HTTP clients are
modelled as oracle functions in an environment record; exceptions are
modelled with `Except`.
-/

/-- Python strings are lists of characters here. -/
abbrev Chars := List Char

/-- Whitespace recognised by Python's `str.strip` and the regex class `\s`
(space, tab, newline, carriage return, vertical tab, form feed). -/
def isPySpace (c : Char) : Bool :=
  c.toNat = 32 || c.toNat = 9 || c.toNat = 10 || c.toNat = 13 ||
  c.toNat = 11 || c.toNat = 12

/-- ASCII decimal digit, as in the regex class `\d`. -/
def isDigitC (c : Char) : Bool := 48 ≤ c.toNat && c.toNat ≤ 57

/-- ASCII uppercasing of one character, as in Python's `str.upper`
(the source only ever uppercases ASCII operator keywords). -/
def upChar (c : Char) : Char :=
  if 97 ≤ c.toNat ∧ c.toNat ≤ 122 then Char.ofNat (c.toNat - 32) else c

/-- Python's `str.strip()`: drop leading and trailing whitespace. -/
def pyStrip (cs : Chars) : Chars :=
  ((cs.dropWhile isPySpace).reverse.dropWhile isPySpace).reverse

/-- Exact decimal number `num / 10 ^ exp`: the model of a Python float.
Every numeric literal of the condition grammar denotes such a number. -/
structure Dec where
  num : Int
  exp : Nat
  deriving DecidableEq, Repr

/-- Ten to a natural power, as an integer (kept structural so that witnesses
evaluate inside the kernel). -/
def tenPow : Nat → Int
  | 0 => 1
  | n + 1 => 10 * tenPow n

/-- Comparison of two decimals by cross multiplication. -/
def Dec.le (a b : Dec) : Bool := a.num * tenPow b.exp ≤ b.num * tenPow a.exp

/-- Strict comparison of two decimals by cross multiplication. -/
def Dec.lt (a b : Dec) : Bool := a.num * tenPow b.exp < b.num * tenPow a.exp

/-- Equality of two decimals by cross multiplication (Python `==` on floats). -/
def Dec.eq (a b : Dec) : Bool := a.num * tenPow b.exp = b.num * tenPow a.exp

/-- Negation of a decimal. -/
def Dec.neg (a : Dec) : Dec := ⟨-a.num, a.exp⟩

/-- The rational number denoted by a decimal. -/
def Dec.toRat (a : Dec) : ℚ := (a.num : ℚ) / ((tenPow a.exp : Int) : ℚ)

theorem tenPow_pos (n : Nat) : 0 < tenPow n := by
  induction n with
  | zero => simp [tenPow]
  | succ k ih => exact mul_pos (by norm_num) ih

theorem tenPow_cast_pos (n : Nat) : (0 : ℚ) < ((tenPow n : Int) : ℚ) := by
  exact_mod_cast tenPow_pos n

theorem Dec.le_iff (a b : Dec) : Dec.le a b = true ↔ a.toRat ≤ b.toRat := by
  rw [Dec.le, decide_eq_true_eq, Dec.toRat, Dec.toRat,
    div_le_div_iff (tenPow_cast_pos a.exp) (tenPow_cast_pos b.exp)]
  exact_mod_cast Iff.rfl

theorem Dec.lt_iff (a b : Dec) : Dec.lt a b = true ↔ a.toRat < b.toRat := by
  rw [Dec.lt, decide_eq_true_eq, Dec.toRat, Dec.toRat,
    div_lt_div_iff (tenPow_cast_pos a.exp) (tenPow_cast_pos b.exp)]
  exact_mod_cast Iff.rfl

/-- Numeric value of a list of ASCII digits, most significant first. -/
def digitsVal (ds : Chars) : Nat := ds.foldl (fun a c => a * 10 + (c.toNat - 48)) 0

/-- Unsigned body of the regex `_SIGNED_NUMBER = [-+]?(?:\d+(?:\.\d+)?|\.\d+)`:
either a digit run, or a digit run (possibly empty) followed by a dot and a
nonempty digit run; the whole input must be consumed.  Returns the exact
decimal value of the matched literal. -/
def sigNumBody (cs : Chars) : Option Dec :=
  let ds := cs.takeWhile isDigitC
  match cs.dropWhile isDigitC with
  | [] => if ds = [] then none else some ⟨(digitsVal ds : Int), 0⟩
  | '.' :: r2 =>
    let fs := r2.takeWhile isDigitC
    if ds = [] ∧ fs = [] then none
    else if fs = [] then none
    else match r2.dropWhile isDigitC with
      | [] => some ⟨(digitsVal (ds ++ fs) : Int), fs.length⟩
      | _ => none
  | _ => none

/-- Full match of the regex `_SIGNED_NUMBER` with its optional sign, giving
the exact decimal value of the literal (the source converts the matched text
with `float(...)`). -/
def sigNum? (cs : Chars) : Option Dec :=
  match cs with
  | [] => sigNumBody []
  | c :: rest =>
    if c = '+' then sigNumBody rest
    else if c = '-' then (sigNumBody rest).map Dec.neg
    else sigNumBody (c :: rest)

/-- Exponent suffix accepted by Python's `float()` after the mantissa:
empty, or `e`/`E` with an optional sign and a nonempty digit run. -/
def floatExp? (cs : Chars) : Option Int :=
  match cs with
  | [] => some 0
  | c :: rest =>
    if c.toNat = 101 ∨ c.toNat = 69 then
      match rest with
      | '+' :: ds => if ds ≠ [] ∧ ds.all isDigitC then some (digitsVal ds : Int) else none
      | '-' :: ds => if ds ≠ [] ∧ ds.all isDigitC then some (-(digitsVal ds : Int)) else none
      | ds => if ds ≠ [] ∧ ds.all isDigitC then some (digitsVal ds : Int) else none
    else none

/-- Scale a decimal by `10 ^ e`. -/
def Dec.scale (d : Dec) (e : Int) : Dec :=
  if 0 ≤ e then ⟨d.num * tenPow e.toNat, d.exp⟩ else ⟨d.num, d.exp + (-e).toNat⟩

/-- Unsigned mantissa accepted by Python's `float()`: digits with an optional
dot and optional further digits (a trailing dot is allowed, unlike
`_SIGNED_NUMBER`), or a dot followed by digits; then an optional exponent.
Underscore separators and the `inf`/`nan` forms of `float()` are not
modelled: no claim exercises them. -/
def floatBody (cs : Chars) : Option Dec :=
  let ds := cs.takeWhile isDigitC
  match cs.dropWhile isDigitC with
  | [] => if ds = [] then none else some ⟨(digitsVal ds : Int), 0⟩
  | '.' :: r2 =>
    if ds = [] ∧ r2.takeWhile isDigitC = [] then none
    else
      let fs := r2.takeWhile isDigitC
      (floatExp? (r2.dropWhile isDigitC)).map fun e =>
        Dec.scale ⟨(digitsVal (ds ++ fs) : Int), fs.length⟩ e
  | rest =>
    if ds = [] then none
    else (floatExp? rest).map fun e => Dec.scale ⟨(digitsVal ds : Int), 0⟩ e

/-- Python's `float(s)` on a string: strip whitespace, optional sign,
then the mantissa/exponent body. -/
def parseFloatChars (cs : Chars) : Option Dec :=
  match pyStrip cs with
  | '+' :: rest => floatBody rest
  | '-' :: rest => (floatBody rest).map Dec.neg
  | rest => floatBody rest

/-- A primitive Python value, the element type of modelled containers.
The spec's evaluation context maps field names to scalar/primitive values;
containers are modelled one level deep, which is all any claim needs. -/
inductive Prim where
  | pNull
  | pBool (b : Bool)
  | pInt (n : Int)
  | pFloat (d : Dec)
  | pStr (s : Chars)
  deriving DecidableEq, Repr

/-- Model of the Python runtime values that can appear in a rule condition,
an evaluation context, or a rule's outputs. -/
inductive Value where
  | vNull
  | vBool (b : Bool)
  | vInt (n : Int)
  | vFloat (d : Dec)
  | vStr (s : Chars)
  | vList (xs : List Prim)
  | vDict (xs : List (Chars × Prim))
  deriving DecidableEq, Repr

/-- Python truthiness (`bool(v)`): None, False, zero, and empty containers
are falsy. -/
def pyTruthy : Value → Bool
  | .vNull => false
  | .vBool b => b
  | .vInt n => n ≠ 0
  | .vFloat d => d.num ≠ 0
  | .vStr s => s ≠ []
  | .vList xs => xs ≠ []
  | .vDict xs => xs ≠ []

/-- Digits of an integer, as in Python's `str(int)`. -/
def intChars (n : Int) : Chars :=
  if n < 0 then '-' :: Nat.toDigits 10 n.natAbs else Nat.toDigits 10 n.natAbs

/-- Python's `repr(float)` for a decimal: minimal digits with at least one
fractional digit (`5.0`, `1.5`, `0.1`).  The scientific notation Python uses
for very large or small magnitudes is not modelled: no claim exercises it. -/
def floatRepr (d : Dec) : Chars :=
  let ds := Nat.toDigits 10 d.num.natAbs
  let padded := List.replicate (d.exp + 1 - ds.length) '0' ++ ds
  let intPart := padded.take (padded.length - d.exp)
  let fracT := (padded.drop (padded.length - d.exp)).reverse.dropWhile (fun c => c.toNat = 48) |>.reverse
  (if d.num < 0 then ['-'] else []) ++ intPart ++ '.' :: (if fracT = [] then ['0'] else fracT)

/-- Comma-space join used by Python's container reprs. -/
def commaJoin : List Chars → Chars
  | [] => []
  | [x] => x
  | x :: rest => x ++ ',' :: ' ' :: commaJoin rest

/-- Python's `repr()` of a primitive, used for the elements of list and
dict reprs (`repr` quotes strings; the quote-switching and character
escaping of `repr` on strings are not modelled: no claim exercises them). -/
def primRepr : Prim → Chars
  | .pNull => ['N', 'o', 'n', 'e']
  | .pBool b => if b then ['T', 'r', 'u', 'e'] else ['F', 'a', 'l', 's', 'e']
  | .pInt n => intChars n
  | .pFloat d => floatRepr d
  | .pStr s => '\'' :: s ++ ['\'']

/-- Python's `str(v)`. -/
def pyStr : Value → Chars
  | .vNull => ['N', 'o', 'n', 'e']
  | .vBool b => if b then ['T', 'r', 'u', 'e'] else ['F', 'a', 'l', 's', 'e']
  | .vInt n => intChars n
  | .vFloat d => floatRepr d
  | .vStr s => s
  | .vList xs => '[' :: commaJoin (xs.map primRepr) ++ [']']
  | .vDict xs =>
    '\x7b' :: commaJoin (xs.map (fun p => '\'' :: p.1 ++ '\'' :: ':' :: ' ' :: primRepr p.2)) ++ ['\x7d']

/-- Python's `float(v)` wherever the source wraps it in try/except:
numbers and booleans convert, strings are parsed, everything else
(None, list, dict) raises and is modelled as `none`. -/
def pyFloat? : Value → Option Dec
  | .vInt n => some ⟨n, 0⟩
  | .vFloat d => some d
  | .vBool b => some ⟨if b then 1 else 0, 0⟩
  | .vStr s => parseFloatChars s
  | _ => none

/-- The guard `isinstance(input_value, (int, float))` of the source — in
Python a `bool` is an `int`, so booleans pass it too — together with the
`float(input_value)` conversion that follows it. -/
def numericVal? : Value → Option Dec
  | .vInt n => some ⟨n, 0⟩
  | .vFloat d => some d
  | .vBool b => some ⟨if b then 1 else 0, 0⟩
  | _ => none

/-- The guard `s.upper().startswith("CP")` of the dispatcher
(67 and 80 are the codes of `C` and `P`). -/
def startsCP (cs : Chars) : Bool :=
  match cs with
  | a :: b :: _ => (upChar a).toNat = 67 && (upChar b).toNat = 80
  | _ => false

/-- The guard `s.upper().startswith("IN")` of the dispatcher
(73 and 78 are the codes of `I` and `N`). -/
def startsIN (cs : Chars) : Bool :=
  match cs with
  | a :: b :: _ => (upChar a).toNat = 73 && (upChar b).toNat = 78
  | _ => false

/-- The guard `re.match(r'^(>=|<=|>|<)', s)` of the dispatcher: the string
starts with `>` (62) or `<` (60). -/
def startsCmp (cs : Chars) : Bool :=
  match cs with
  | c :: _ => c.toNat = 62 || c.toNat = 60
  | _ => false

/-- The guard `".." in s` of the dispatcher: two adjacent dots somewhere. -/
def hasDotDot : Chars → Bool
  | [] => false
  | [_] => false
  | c :: c2 :: rest => (c = '.' && c2 = '.') || hasDotDot (c2 :: rest)

/-- Split at the first occurrence of `..` (as `str.find` would locate it).
The anchored regex `^(N)\.\.(N)$` can only match by splitting at the first
occurrence: a signed-number literal never contains two adjacent dots, so an
earlier occurrence inside the would-be first group is impossible. -/
def splitDotDot : Chars → Option (Chars × Chars)
  | [] => none
  | [_] => none
  | c :: c2 :: rest =>
    if c = '.' ∧ c2 = '.' then some ([], rest)
    else (splitDotDot (c2 :: rest)).map (fun p => (c :: p.1, p.2))

/-- Full match of `^(_SIGNED_NUMBER)\.\.(_SIGNED_NUMBER)$` with the exact
values of the two literals. -/
def rangeParts (cs : Chars) : Option (Dec × Dec) :=
  match splitDotDot cs with
  | some (a, b) =>
    match sigNum? a, sigNum? b with
    | some mn, some mx => some (mn, mx)
    | _, _ => none
  | none => none

/-- The source's `parse_range`: regex match, `float` both groups and the
input value, then the inclusive bounds check; any conversion failure
(modelled by `none`) yields `False`. -/
def parse_range (s : Chars) (input_value : Value) : Bool :=
  match rangeParts s with
  | some (mn, mx) =>
    match pyFloat? input_value with
    | some val => Dec.le mn val && Dec.le val mx
    | none => false
  | none => false

/-- Comparison operators of the grammar. -/
inductive CmpOp where
  | gt | ge | lt | le
  deriving DecidableEq, Repr

/-- Full match of `^(>|>=|<|<=)\s*(_SIGNED_NUMBER)$`: operator, optional
whitespace, then the numeric literal (regex backtracking makes the two-char
operators win exactly when `=` follows). -/
def cmpParse (cs : Chars) : Option (CmpOp × Dec) :=
  match cs with
  | '>' :: '=' :: rest => (sigNum? (rest.dropWhile isPySpace)).map (fun d => (CmpOp.ge, d))
  | '<' :: '=' :: rest => (sigNum? (rest.dropWhile isPySpace)).map (fun d => (CmpOp.le, d))
  | '>' :: rest => (sigNum? (rest.dropWhile isPySpace)).map (fun d => (CmpOp.gt, d))
  | '<' :: rest => (sigNum? (rest.dropWhile isPySpace)).map (fun d => (CmpOp.lt, d))
  | _ => none

/-- The source's `parse_comparison`: regex match, `float` the value, compare;
conversion failure yields `False`. -/
def parse_comparison (s : Chars) (input_value : Value) : Bool :=
  match cmpParse s with
  | some (op, limit) =>
    match pyFloat? input_value with
    | some val =>
      match op with
      | .gt => Dec.lt limit val
      | .ge => Dec.le limit val
      | .lt => Dec.lt val limit
      | .le => Dec.le val limit
    | none => false
  | none => false

/-- Full match of `(?i)^IN\s*\((.*)\)$`, returning the greedy group between
the opening parenthesis and the last closing parenthesis.  `.` does not
match a newline and `$` also matches just before one final newline, so the
body must be newline-free and at most one trailing newline may follow the
closing parenthesis. -/
def inBody? (cs : Chars) : Option Chars :=
  match cs with
  | a :: b :: rest =>
    if (upChar a).toNat = 73 ∧ (upChar b).toNat = 78 then
      match rest.dropWhile isPySpace with
      | '(' :: r2 =>
        match r2.reverse with
        | ')' :: body => if ('\n' ∈ body) then none else some body.reverse
        | '\n' :: ')' :: body => if ('\n' ∈ body) then none else some body.reverse
        | _ => none
      | _ => none
    else none
  | _ => none

/-- One attempt of `re.findall(r"([-+]?\d*\.\d+|[-+]?\d+)", inner)` at the
current position: the first alternative (digits, dot, nonempty digits) is
tried, then the plain integer alternative; returns the matched value and
the remainder after the match. -/
def tryNumAt (cs : Chars) : Option (Dec × Chars) :=
  let sgn : Int := match cs with
    | '-' :: _ => -1
    | _ => 1
  let cs1 : Chars := match cs with
    | '+' :: t => t
    | '-' :: t => t
    | t => t
  let ds := cs1.takeWhile isDigitC
  match cs1.dropWhile isDigitC with
  | '.' :: r2 =>
    let fs := r2.takeWhile isDigitC
    if fs ≠ [] then some (⟨sgn * (digitsVal (ds ++ fs) : Int), fs.length⟩, r2.dropWhile isDigitC)
    else if ds ≠ [] then some (⟨sgn * (digitsVal ds : Int), 0⟩, '.' :: r2)
    else none
  | rest =>
    if ds ≠ [] then some (⟨sgn * (digitsVal ds : Int), 0⟩, rest)
    else none


/-- Fuelled left-to-right non-overlapping scan of `re.findall` for numeric
tokens; every successful match consumes at least one character, so fuel
equal to the scanned length never runs out. -/
def findNumsF : Nat → Chars → List Dec
  | 0, _ => []
  | _ + 1, [] => []
  | fuel + 1, c :: rest =>
    match tryNumAt (c :: rest) with
    | some (d, rest2) => d :: findNumsF fuel rest2
    | none => findNumsF fuel rest

/-- The numeric branch of `parse_in_operator`:
`re.findall(r"([-+]?\d*\.\d+|[-+]?\d+)", inner)`. -/
def findNumbers (inner : Chars) : List Dec := findNumsF inner.length inner

/-- Replace every occurrence of backslash-`q` by `q`, left to right and
non-overlapping, as `str.replace` does for the unescaping step of
`parse_in_operator`. -/
def replaceEsc (q : Char) : Chars → Chars
  | '\\' :: c :: rest => if c = q then c :: replaceEsc q rest else '\\' :: replaceEsc q (c :: rest)
  | c :: rest => c :: replaceEsc q rest
  | [] => []

/-- The two sequential unescaping replaces of `parse_in_operator`:
`content.replace("\\'", "'").replace('\\"', '"')`. -/
def unescapeItem (cs : Chars) : Chars := replaceEsc '"' (replaceEsc '\'' cs)

/-- Scan the interior of a quoted literal opened with quote `q`: the regex
body `(?:[^q\\]|\\.)*` followed by the closing quote.  Characters are kept
raw (unescaping happens afterwards); a backslash must be followed by a
non-newline character; an unterminated literal fails. -/
def scanQuoted (q : Char) : Chars → Chars → Option (Chars × Chars)
  | acc, c :: rest =>
    if c = q then some (acc.reverse, rest)
    else if c = '\\' then
      match rest with
      | c2 :: rest2 => if c2 = '\n' then none else scanQuoted q (c2 :: '\\' :: acc) rest2
      | [] => none
    else scanQuoted q (c :: acc) rest
  | _, [] => none

/-- Fuelled scan of `re.finditer` for the quoted-literal pattern
`'(?P<sq>(?:[^'\\]|\\.)*)'|\"(?P<dq>(?:[^\"\\]|\\.)*)\"`: at each position a
single- or double-quoted literal is tried; on failure the scan advances one
character. -/
def findQuotedF : Nat → Chars → List Chars
  | 0, _ => []
  | _ + 1, [] => []
  | fuel + 1, c :: rest =>
    if c = '\'' ∨ c = '"' then
      match scanQuoted c [] rest with
      | some (content, rest2) => content :: findQuotedF fuel rest2
      | none => findQuotedF fuel rest
    else findQuotedF fuel rest

/-- All quoted string literals of an `IN (...)` body, in order. -/
def findQuoted (inner : Chars) : List Chars := findQuotedF inner.length inner

/-- The source's `parse_in_operator`: regex match of `IN (...)`; numeric
input values are compared against the bare numeric tokens of the body,
all other input values are stringified and compared against the quoted,
unescaped string literals of the body. -/
def parse_in_operator (s : Chars) (input_value : Value) : Bool :=
  match inBody? s with
  | none => false
  | some inner =>
    match numericVal? input_value with
    | some val => (findNumbers inner).any (fun d => Dec.eq d val)
    | none => ((findQuoted inner).map unescapeItem).any (fun item => item = pyStr input_value)

/-- Glob matching of `fnmatch.fnmatchcase` restricted to the wildcards the
CP grammar documents: `*` for any sequence and `?` for one character (the
SAP `+` has already been mapped to `?`); other characters match literally.
The `[...]` character classes of `fnmatch` are not modelled: the CP grammar
does not document them and no claim exercises them. -/
def globMatch : Chars → Chars → Bool
  | [], [] => true
  | '*' :: p, t =>
    globMatch p t ||
      (match t with
       | [] => false
       | _ :: t2 => globMatch ('*' :: p) t2)
  | '?' :: p, _ :: t => globMatch p t
  | c :: p, d :: t => c = d && globMatch p t
  | _, _ => false
termination_by p t => (p.length, t.length)

/-- Group of the regex `(?i)^CP\s+(.+)$`: after the case-insensitive `CP`
there must be at least one whitespace character; the group is the remainder
after the maximal whitespace run, which must be nonempty and newline-free
except for at most one trailing newline (dropped by `$`).  A remainder
consisting of whitespace only is treated as no match: the regex can then at
most capture a single whitespace character, and both callers strip the
group and reject an empty pattern, so the observable result is `False`
either way. -/
def cpGroup? (cs : Chars) : Option Chars :=
  match cs with
  | a :: b :: rest =>
    if (upChar a).toNat = 67 ∧ (upChar b).toNat = 80 then
      match rest with
      | c :: _ =>
        if isPySpace c then
          let g0 := rest.dropWhile isPySpace
          let g1 := match g0.reverse with
            | '\n' :: gr => gr.reverse
            | _ => g0
          if g1 = [] ∨ '\n' ∈ g1 then none else some g1
        else none
      | [] => none
    else none
  | _ => none

/-- Strip one layer of matching surrounding quotes, as `parse_cp_operator`
and `validate_syntax` do for CP patterns. -/
def stripMatchingQuotes (p : Chars) : Chars :=
  if 2 ≤ p.length ∧ p.head? = p.getLast? ∧ (p.head? = some '\'' ∨ p.head? = some '"') then
    (p.drop 1).dropLast
  else p

/-- The source's `parse_cp_operator`: regex match of `CP <pattern>` on the
stripped condition, strip the group, optionally strip matching quotes, map
the SAP single-character wildcard `+` to `?`, reject an empty pattern, then
glob-match the stringified input value. -/
def parse_cp_operator (s : Chars) (input_value : Value) : Bool :=
  match cpGroup? (pyStrip s) with
  | none => false
  | some g =>
    let raw := pyStrip g
    if raw = [] then false
    else
      let pat := (stripMatchingQuotes raw).map (fun c => if c = '+' then '?' else c)
      if pat = [] then false
      else globMatch pat (pyStr input_value)

/-- The condition value as the dispatcher sees it:
`str(condition_str or "").strip()` — any falsy condition (None, 0, 0.0,
False, empty string) becomes the empty string before stripping. -/
def condStr (condition_str : Value) : Chars :=
  pyStrip (if pyTruthy condition_str then pyStr condition_str else [])

/-- Reason strings returned by `evaluate_condition_with_reason`. -/
def wildcardMsg : Chars := ("blank condition (wildcard)").data

/-- Reason for a null input value under a non-blank condition. -/
def missingValueMsg : Chars := ("input value is missing").data

/-- The source's `evaluate_condition_with_reason`: blank wildcard, null
input guard, then dispatch on CP prefix, `..`, comparison prefix, IN
prefix, and finally the numeric/exact equality fallback.  Total by
construction, mirroring the try/except guards of the source. -/
def evaluate_condition_with_reason (condition_str : Value) (input_value : Value) :
    Bool × Chars :=
  let s := condStr condition_str
  if s = [] then (true, wildcardMsg)
  else if input_value = Value.vNull then (false, missingValueMsg)
  else if startsCP s then
    let ok := parse_cp_operator s input_value
    (ok, if ok then ("pattern matched").data else ("pattern mismatch").data)
  else if hasDotDot s then
    match rangeParts s with
    | none => (false, ("invalid range syntax").data)
    | some _ =>
      let ok := parse_range s input_value
      (ok, if ok then ("value in range").data else ("value outside range").data)
  else if startsCmp s then
    match cmpParse s with
    | none => (false, ("invalid comparison syntax").data)
    | some _ =>
      let ok := parse_comparison s input_value
      (ok, if ok then ("comparison matched").data else ("comparison failed").data)
  else if startsIN s then
    match inBody? s with
    | none => (false, ("invalid IN syntax").data)
    | some _ =>
      let ok := parse_in_operator s input_value
      (ok, if ok then ("value in set").data else ("value not in set").data)
  else
    match numericVal? input_value with
    | some val =>
      match parseFloatChars s with
      | some q =>
        let ok := Dec.eq q val
        (ok, if ok then ("numeric equality matched").data else ("numeric equality failed").data)
      | none =>
        let ok := s = pyStr input_value
        (ok, if ok then ("exact match").data else ("exact mismatch").data)
    | none =>
      let ok := s = pyStr input_value
      (ok, if ok then ("exact match").data else ("exact mismatch").data)

/-- The source's `evaluate_condition`: the boolean part of
`evaluate_condition_with_reason`. -/
def evaluate_condition (condition_str : Value) (input_value : Value) : Bool :=
  (evaluate_condition_with_reason condition_str input_value).1

/-- An association list modelling a Python dict with string keys
(insertion-ordered, keys unique in actual Python dicts). -/
abbrev Ctx := List (Chars × Value)

/-- Python `dict.get(key)` returning the stored value when present. -/
def ctxGet? : Ctx → Chars → Option Value
  | [], _ => none
  | (k, v) :: rest, key => if k = key then some v else ctxGet? rest key

/-- Python `dict.get(key)` with its `None` default. -/
def ctxGet (d : Ctx) (key : Chars) : Value := (ctxGet? d key).getD Value.vNull

/-- Python `key in dict`. -/
def ctxHas (d : Ctx) (key : Chars) : Bool := (ctxGet? d key).isSome

/-- Python `dict[key] = value`: replace in place when the key exists,
append otherwise (insertion order preserved, as `dict.update` does). -/
def ctxSet : Ctx → Chars → Value → Ctx
  | [], key, v => [(key, v)]
  | (k, w) :: rest, key, v =>
    if k = key then (k, v) :: rest else (k, w) :: ctxSet rest key v

/-- The rule logic document `{"inputs": {...}, "outputs": {...}}`; a key
absent from the document is an empty mapping, as `logic.get(..., {}) or {}`
makes it. -/
structure RuleLogic where
  inputs : Ctx
  outputs : Ctx
  deriving DecidableEq, Repr

/-- One entry of the `field_results` trace of `evaluate_rule_with_trace`. -/
structure FieldResult where
  field : Chars
  condition : Chars
  actual : Value
  matched : Bool
  reason : Chars
  deriving DecidableEq, Repr

/-- Result of `evaluate_rule_with_trace`.  The `failed_fields` key is a
dict key the source omits on the empty-inputs early return, hence the
`Option`. -/
structure TraceResult where
  matched : Bool
  field_results : List FieldResult
  failed_fields : Option (List FieldResult)
  summary : Chars
  deriving DecidableEq, Repr

/-- The condition text of one input field:
`"" if condition is None else str(condition)`. -/
def condText (condition : Value) : Chars :=
  if condition = Value.vNull then [] else pyStr condition

/-- The trace entry one loop iteration of `evaluate_rule_with_trace`
produces for a declared input field: the blank-condition wildcard entry,
the missing-context-key failure entry, or the delegated evaluation entry. -/
def fieldEntry (context : Ctx) (key : Chars) (condition : Value) : FieldResult :=
  let ct := condText condition
  if pyStrip ct = [] then
    ⟨key, [], ctxGet context key, true, wildcardMsg⟩
  else if ctxHas context key = false then
    ⟨key, ct, Value.vNull, false, ("input missing in context").data⟩
  else
    let r := evaluate_condition_with_reason (Value.vStr ct) (ctxGet context key)
    ⟨key, ct, ctxGet context key, r.1, r.2⟩

/-- The loop of `evaluate_rule_with_trace` over the declared input fields,
carrying the running matched flag, the trace, and the failure list exactly
as the source appends to them. -/
def traceFold (context : Ctx) :
    List (Chars × Value) → Bool → List FieldResult → List FieldResult →
    Bool × List FieldResult × List FieldResult
  | [], m, frs, ffs => (m, frs, ffs)
  | (key, condition) :: rest, m, frs, ffs =>
    let e := fieldEntry context key condition
    traceFold context rest (m && e.matched) (frs ++ [e])
      (if e.matched then ffs else ffs ++ [e])

/-- The source's `evaluate_rule_with_trace`: empty inputs match
unconditionally (and the early return carries no `failed_fields` key);
otherwise every declared field is evaluated without short-circuiting. -/
def evaluate_rule_with_trace (logic : RuleLogic) (context : Ctx) : TraceResult :=
  if logic.inputs = [] then
    ⟨true, [], none, ("Rule has no input conditions").data⟩
  else
    let r := traceFold context logic.inputs true [] []
    ⟨r.1, r.2.1, some r.2.2, if r.1 then ("matched").data else ("failed").data⟩

/-- The source's `evaluate_rule`: the matched flag of the trace. -/
def evaluate_rule (logic : RuleLogic) (context : Ctx) : Bool :=
  (evaluate_rule_with_trace logic context).matched

/-- The source's `validate_syntax` (the name is abbreviated here): checks a
condition string for structural well-formedness without a value — inverted
ranges are rejected, malformed leading comparison operators are rejected,
`IN`/`CP` prefixes must complete their grammar, and anything else is a
syntactically valid equality literal. -/
def syntax_valid (condition_str : Chars) : Bool :=
  let s := pyStrip condition_str
  match rangeParts s with
  | some (mn, mx) => !Dec.lt mx mn
  | none =>
    if (s.contains '>' || s.contains '<') && (cmpParse s).isSome then true
    else if (s.contains '>' || s.contains '<') && startsCmp s then false
    else if startsIN s then (inBody? s).isSome
    else if startsCP s then
      match cpGroup? s with
      | none => false
      | some g => stripMatchingQuotes (pyStrip g) ≠ []
    else true

/-- The hit-policy enum of `backend/models.py`. -/
inductive HitPolicy where
  | FIRST_HIT
  | COLLECT_ALL
  | UNIQUE
  deriving DecidableEq, Repr

/-- A rule as the engine sees it after `_get_value` normalisation: an id
(stringified), an integer priority, and the logic document.  The engine
receives the rules already ordered by ascending priority. -/
structure Rule where
  id : Chars
  priority : Int
  logic : RuleLogic
  deriving DecidableEq, Repr

/-- One per-rule entry of the detailed trace built by `_evaluate_rules`. -/
structure TraceRow where
  rule_id : Chars
  priority : Int
  matched : Bool
  failed_fields : List FieldResult
  field_results : List FieldResult
  summary : Chars
  deriving DecidableEq, Repr

/-- The result dictionary of `DecisionEngine._evaluate_rules`. -/
structure EvalResult where
  result : Ctx
  hit_policy : HitPolicy
  rule_id : Option Chars
  matched_rule_ids : List Chars
  error : Option Chars
  trace : List TraceRow
  deriving DecidableEq, Repr

/-- The scanning loop of `_evaluate_rules`: every rule is evaluated through
`evaluate_rule_with_trace` (in non-detailed mode the source calls
`evaluate_rule`, whose matched flag is the same); FIRST_HIT stops at the
first match and UNIQUE stops as soon as a second match is found. -/
def scanRules (hp : HitPolicy) (context : Ctx) (detailed : Bool) :
    List Rule → List Rule → List TraceRow → List Rule × List TraceRow
  | [], acc, tr => (acc, tr)
  | r :: rest, acc, tr =>
    let ti := evaluate_rule_with_trace r.logic context
    let tr2 := if detailed then
        tr ++ [⟨r.id, r.priority, ti.matched, ti.failed_fields.getD [],
               ti.field_results, ti.summary⟩]
      else tr
    if ti.matched then
      let acc2 := acc ++ [r]
      if hp = HitPolicy.FIRST_HIT then (acc2, tr2)
      else if hp = HitPolicy.UNIQUE ∧ 1 < acc2.length then (acc2, tr2)
      else scanRules hp context detailed rest acc2 tr2
    else scanRules hp context detailed rest acc tr2

/-- `dict.update` of one outputs mapping into the running result. -/
def ctxUpdate (d : Ctx) (xs : Ctx) : Ctx := xs.foldl (fun a p => ctxSet a p.1 p.2) d

/-- Error message of the UNIQUE conflict branch. -/
def uniqueErrMsg : Chars := ("Unique Hit Policy Violation: Multiple rules matched").data

namespace DecisionEngine

/-- The source's `DecisionEngine._evaluate_rules`: scan the ordered rule
list under the hit policy, then build the result dictionary — no match,
UNIQUE conflict, COLLECT_ALL merge, or the first matched rule. -/
def evaluate_rules (hit_policy : HitPolicy) (rules : List Rule)
    (context : Ctx) (detailed : Bool) : EvalResult :=
  let scanned := scanRules hit_policy context detailed rules [] []
  let matched_rules := scanned.1
  let trace := if detailed then scanned.2 else []
  let matched_rule_ids := matched_rules.map (fun r => r.id)
  match matched_rules with
  | [] => ⟨[], hit_policy, none, [], none, trace⟩
  | best :: _ =>
    if hit_policy = HitPolicy.UNIQUE ∧ 1 < matched_rules.length then
      ⟨[], hit_policy, some ("CONFLICT").data, matched_rule_ids, some uniqueErrMsg, trace⟩
    else if hit_policy = HitPolicy.COLLECT_ALL then
      ⟨matched_rules.foldl (fun acc r => ctxUpdate acc r.logic.outputs) [],
       hit_policy, some ("MULTIPLE").data, matched_rule_ids, none, trace⟩
    else
      ⟨best.logic.outputs, hit_policy, some best.id, matched_rule_ids, none, trace⟩

end DecisionEngine

/-- The resolution-strategy enum of `backend/models.py`; the source's
`_normalize_strategy` string munging collapses both the enum and its string
form to one of these. -/
inductive Strategy where
  | DIRECT
  | ASSOCIATION
  | EXTERNAL
  deriving DecidableEq, Repr

/-- The two error classes of `backend/resolver_errors.py`:
`ResolverConfigurationError` and `ResolverDataError`. -/
inductive RErr where
  | config (msg : Chars)
  | data (msg : Chars)
  deriving DecidableEq, Repr

/-- An `AttributeRegistry` row as the resolver reads it; the
strategy-specific `path_logic` document stays inside the oracles below. -/
structure RegEntry where
  target_object : Chars
  attribute_name : Chars
  resolution_strategy : Strategy
  deriving DecidableEq, Repr

/-- The effectful surroundings of `AttributeResolverService.hydrate_context`:
the registry table, and one oracle per strategy abstracting the database
lookup (`_resolve_direct`, `_resolve_association`) or the external fetch
plus JSON-path extraction of `_resolve_external_batch`.  Each oracle may
fail with a configuration error (identifier validation, missing endpoint or
jsonpath, broken template) or a data error (HTTP failure), or report the
value as absent (`none`: no row found / JSON path found nothing). -/
structure ResolverEnv where
  registry : List RegEntry
  direct : RegEntry → Chars → Except RErr (Option Value)
  assoc : RegEntry → Chars → Chars → Except RErr (Option Value)
  externalValue : RegEntry → Except RErr (Option Value)

/-- The source's `_normalize_object_type`: strip, uppercase, reject blank. -/
def normalizeObjectType (object_type : Chars) : Except RErr Chars :=
  let t := (pyStrip object_type).map upChar
  if t = [] then .error (.config (("object_type is required for attribute resolution.").data))
  else .ok t

/-- The source's `_resolve_single`: dispatch on the normalised strategy;
EXTERNAL entries never reach it from `hydrate_context`. -/
def resolveSingle (env : ResolverEnv) (target_object object_id : Chars)
    (entry : RegEntry) : Except RErr (Option Value) :=
  match entry.resolution_strategy with
  | .DIRECT => env.direct entry object_id
  | .ASSOCIATION => env.assoc entry target_object object_id
  | .EXTERNAL => .error (.config (("EXTERNAL attributes must be resolved in batch.").data))

/-- The source's `_resolve_external_batch` with the per-request grouping
abstracted away (grouping only deduplicates outbound calls; the value each
attribute extracts from the shared response is what the oracle returns).
Only attributes whose JSON path produced a value appear in the result. -/
def resolveExternalBatch (env : ResolverEnv) :
    List (Chars × RegEntry) → Except RErr (List (Chars × Value))
  | [] => .ok []
  | (k, e) :: rest =>
    match env.externalValue e with
    | .error er => .error er
    | .ok none => resolveExternalBatch env rest
    | .ok (some v) => (resolveExternalBatch env rest).map (fun vs => (k, v) :: vs)

/-- The per-attribute loop of `hydrate_context`: EXTERNAL entries are
deferred, other strategies resolve at once — a `none` result marks the
attribute unresolved, a value is written into the hydrated context. -/
def resolveLoop (env : ResolverEnv) (target_object object_id : Chars) :
    List (Chars × RegEntry) → Ctx → List Chars → List (Chars × RegEntry) →
    Except RErr (Ctx × List Chars × List (Chars × RegEntry))
  | [], hyd, unres, ext => .ok (hyd, unres, ext)
  | (k, e) :: rest, hyd, unres, ext =>
    if e.resolution_strategy = Strategy.EXTERNAL then
      resolveLoop env target_object object_id rest hyd unres (ext ++ [(k, e)])
    else
      match resolveSingle env target_object object_id e with
      | .error er => .error er
      | .ok none => resolveLoop env target_object object_id rest hyd (unres ++ [k]) ext
      | .ok (some v) => resolveLoop env target_object object_id rest (ctxSet hyd k v) unres ext

/-- Lexicographic comparison of character lists (Python string `<` by code
point), used for the `sorted(...)` in the resolver's error messages. -/
def charsLe : Chars → Chars → Bool
  | [], _ => true
  | _ :: _, [] => false
  | a :: as2, b :: bs => if a.toNat = b.toNat then charsLe as2 bs else a.toNat < b.toNat

/-- Insertion sort by `charsLe`, modelling Python's `sorted` on strings. -/
def insertSorted (x : Chars) : List Chars → List Chars
  | [] => [x]
  | y :: rest => if charsLe x y then x :: y :: rest else y :: insertSorted x rest

/-- Sorted list of strings, as Python's `sorted`. -/
def sortChars : List Chars → List Chars
  | [] => []
  | x :: rest => insertSorted x (sortChars rest)

/-- Comma-space join of Python's `", ".join`. -/
def joinComma : List Chars → Chars
  | [] => []
  | [x] => x
  | x :: rest => x ++ ',' :: ' ' :: joinComma rest

/-- Message of the missing-registry configuration error, naming all missing
registrations collectively. -/
def missingRegistryMsg (target : Chars) (missing : List Chars) : Chars :=
  ("No attribute registry entry for ").data ++ target ++ ':' :: ' ' ::
    joinComma (sortChars missing)

/-- Message of the unresolved-attributes data error. -/
def unresolvedMsg (target object_id : Chars) (unres : List Chars) : Chars :=
  ("Could not resolve attributes for ").data ++ target ++ ' ' :: object_id ++
    ':' :: ' ' :: joinComma (sortChars unres)

/-- The non-blank required attributes of `hydrate_context`. -/
def requiredOf (required_attributes : List Chars) : List Chars :=
  required_attributes.filter (fun k => pyStrip k ≠ [])

/-- The "to_resolve" set of `hydrate_context`: required attributes that are
absent, null, or the empty string in the incoming context. -/
def toResolveOf (context : Ctx) (required : List Chars) : List Chars :=
  required.filter (fun k =>
    !ctxHas context k || ctxGet context k = Value.vNull ||
      ctxGet context k = Value.vStr [])

/-- The registry rows matching the target object and the to_resolve set. -/
def rowsOf (env : ResolverEnv) (target : Chars) (to_resolve : List Chars) :
    List RegEntry :=
  env.registry.filter (fun r =>
    r.target_object = target && to_resolve.contains r.attribute_name)

/-- The `registry_by_attr` dict lookup (later rows shadow earlier ones, as
in the dict comprehension of the source). -/
def lookupRowOf (rows : List RegEntry) (k : Chars) : Option RegEntry :=
  (rows.filter (fun r => r.attribute_name = k)).getLast?

/-- The attributes of the to_resolve set with no registry row. -/
def missingOf (rows : List RegEntry) (to_resolve : List Chars) : List Chars :=
  to_resolve.filter (fun k => (lookupRowOf rows k).isNone)

/-- The to_resolve attributes paired with their registry rows. -/
def pairsOf (rows : List RegEntry) (to_resolve : List Chars) :
    List (Chars × RegEntry) :=
  to_resolve.filterMap (fun k => (lookupRowOf rows k).map (fun e => (k, e)))

/-- The source's `AttributeResolverService.hydrate_context`: copy the
context, bail out on a falsy object id, normalise the object type, keep the
required attributes that are non-blank, target only those absent, null or
empty-string in the context, look their registry rows up (failing together
on missing registrations), resolve per strategy with EXTERNAL batched last,
and fail together on attributes that stayed unresolved. -/
def hydrate_context (env : ResolverEnv) (object_type object_id : Chars)
    (required_attributes : List Chars) (context : Ctx) : Except RErr Ctx :=
  let hydrated := context
  if object_id = [] then .ok hydrated
  else
    match normalizeObjectType object_type with
    | .error e => .error e
    | .ok target =>
      let to_resolve := toResolveOf hydrated (requiredOf required_attributes)
      if to_resolve = [] then .ok hydrated
      else
        let rows := rowsOf env target to_resolve
        let missing := missingOf rows to_resolve
        if missing ≠ [] then .error (.config (missingRegistryMsg target missing))
        else
          let pairs := pairsOf rows to_resolve
          match resolveLoop env target object_id pairs hydrated [] [] with
          | .error e => .error e
          | .ok (hyd2, unres, ext) =>
            if ext = [] then
              if unres ≠ [] then .error (.data (unresolvedMsg target object_id unres))
              else .ok hyd2
            else
              match resolveExternalBatch env ext with
              | .error e => .error e
              | .ok vals =>
                let hyd3 := vals.foldl (fun h p => ctxSet h p.1 p.2) hyd2
                let unres2 := unres ++ (ext.map (fun p => p.1)).filter (fun k => !ctxHas hyd3 k)
                if unres2 ≠ [] then .error (.data (unresolvedMsg target object_id unres2))
                else .ok hyd3

/-- One trace entry per declared input field: the loop of
`evaluate_rule_with_trace` accumulates exactly the per-field entries, the
conjunction of their matched flags, and the non-matching ones as failures. -/
theorem traceFold_eq (context : Ctx) (inputs : List (Chars × Value))
    (m : Bool) (frs ffs : List FieldResult) :
    traceFold context inputs m frs ffs =
      (m && (inputs.map (fun p => fieldEntry context p.1 p.2)).all (fun e => e.matched),
       frs ++ inputs.map (fun p => fieldEntry context p.1 p.2),
       ffs ++ (inputs.map (fun p => fieldEntry context p.1 p.2)).filter (fun e => !e.matched)) := by
  induction inputs generalizing m frs ffs with
  | nil => simp [traceFold]
  | cons p rest ih =>
    obtain ⟨key, condition⟩ := p
    rw [traceFold, ih]
    simp only [List.map_cons, List.all_cons, List.filter_cons]
    cases hm : (fieldEntry context key condition).matched <;>
      simp [hm, Bool.and_assoc, List.append_assoc]

/-- Matched flag of a rule with at least one declared input. -/
theorem trace_matched_eq (logic : RuleLogic) (context : Ctx)
    (h : logic.inputs ≠ []) :
    (evaluate_rule_with_trace logic context).matched =
      (logic.inputs.map (fun p => fieldEntry context p.1 p.2)).all (fun e => e.matched) := by
  rw [evaluate_rule_with_trace, if_neg h, traceFold_eq]
  simp

/-- Field results of a rule with at least one declared input. -/
theorem trace_field_results_eq (logic : RuleLogic) (context : Ctx)
    (h : logic.inputs ≠ []) :
    (evaluate_rule_with_trace logic context).field_results =
      logic.inputs.map (fun p => fieldEntry context p.1 p.2) := by
  rw [evaluate_rule_with_trace, if_neg h, traceFold_eq]
  simp

/-- Failure list of a rule with at least one declared input. -/
theorem trace_failed_fields_eq (logic : RuleLogic) (context : Ctx)
    (h : logic.inputs ≠ []) :
    (evaluate_rule_with_trace logic context).failed_fields =
      some ((logic.inputs.map (fun p => fieldEntry context p.1 p.2)).filter
        (fun e => !e.matched)) := by
  rw [evaluate_rule_with_trace, if_neg h, traceFold_eq]
  simp

/-- C3: for every condition value and every input value, a condition that is
blank after trimming matches as the wildcard with reason
"blank condition (wildcard)" regardless of the value (null included); and
under every non-blank condition a null input value yields
(false, "input value is missing") before any grammar dispatch. -/
theorem C3_blank_wildcard_null_guard (c v : Value) :
    (condStr c = [] → evaluate_condition_with_reason c v = (true, wildcardMsg)) ∧
    (condStr c ≠ [] → v = Value.vNull →
      evaluate_condition_with_reason c v = (false, missingValueMsg)) := by
  constructor
  · intro h
    rw [evaluate_condition_with_reason]
    simp [h]
  · intro h hv
    rw [evaluate_condition_with_reason]
    simp [h, hv]

/-- Witness for C3 at a whitespace-only condition with a non-null value and
at a non-blank condition with a null value. -/
theorem C3_blank_wildcard_null_guard_witness :
    evaluate_condition_with_reason (Value.vStr ("  ").data) (Value.vInt 7) =
      (true, wildcardMsg) ∧
    evaluate_condition_with_reason (Value.vStr ("18..65").data) Value.vNull =
      (false, missingValueMsg) :=
  ⟨(C3_blank_wildcard_null_guard (Value.vStr ("  ").data) (Value.vInt 7)).1 (by decide),
   (C3_blank_wildcard_null_guard (Value.vStr ("18..65").data) Value.vNull).2 (by decide) rfl⟩

/-- C10: every falsy non-string condition value (null, 0, 0.0, False) is
treated by `evaluate_condition_with_reason` as the blank wildcard, matching
every value; and `evaluate_rule_with_trace` records a wildcard match for a
field whose declared condition is null, with the same matched flag and
reason whatever the context holds for that field. -/
theorem C10_falsy_condition_is_wildcard :
    (∀ c v : Value, pyTruthy c = false →
      evaluate_condition_with_reason c v = (true, wildcardMsg)) ∧
    (∀ (inputs outputs context : Ctx) (i : Nat) (k : Chars),
      inputs.get? i = some (k, Value.vNull) →
      (evaluate_rule_with_trace ⟨inputs, outputs⟩ context).field_results.get? i =
        some ⟨k, [], ctxGet context k, true, wildcardMsg⟩) := by
  constructor
  · intro c v h
    have hs : condStr c = [] := by
      rw [condStr, h]
      rfl
    rw [evaluate_condition_with_reason]
    simp [hs]
  · intro inputs outputs context i k h
    have hne : inputs ≠ [] := by
      intro he
      rw [he] at h
      simp at h
    rw [trace_field_results_eq ⟨inputs, outputs⟩ context hne]
    simp only [RuleLogic.inputs, List.get?_map, h, Option.map_some]
    rfl

/-- Witness for C10 at the falsy conditions 0, 0.0, False and None, and at
a rule whose first declared field has condition None while the field is
absent from the context. -/
theorem C10_falsy_condition_is_wildcard_witness :
    evaluate_condition_with_reason (Value.vInt 0) (Value.vInt 5) = (true, wildcardMsg) ∧
    evaluate_condition_with_reason (Value.vFloat ⟨0, 1⟩) (Value.vStr ("x").data) = (true, wildcardMsg) ∧
    evaluate_condition_with_reason (Value.vBool false) (Value.vInt 5) = (true, wildcardMsg) ∧
    evaluate_condition_with_reason Value.vNull Value.vNull = (true, wildcardMsg) ∧
    (evaluate_rule_with_trace ⟨[(("age").data, Value.vNull)], []⟩ []).field_results.get? 0 =
      some ⟨("age").data, [], Value.vNull, true, wildcardMsg⟩ :=
  ⟨C10_falsy_condition_is_wildcard.1 (Value.vInt 0) (Value.vInt 5) rfl,
   C10_falsy_condition_is_wildcard.1 (Value.vFloat ⟨0, 1⟩) (Value.vStr ("x").data) rfl,
   C10_falsy_condition_is_wildcard.1 (Value.vBool false) (Value.vInt 5) rfl,
   C10_falsy_condition_is_wildcard.1 Value.vNull Value.vNull rfl,
   C10_falsy_condition_is_wildcard.2 [(("age").data, Value.vNull)] [] [] 0 ("age").data rfl⟩

/-- C9 counterexample: on a rule with no declared input conditions the
early return of `evaluate_rule_with_trace` carries no `failed_fields` key
(modelled as `none`), contradicting the claim that the mapping always
contains all four keys. -/
theorem C9_empty_inputs_no_failed_fields :
    (evaluate_rule_with_trace ⟨[], []⟩ []).failed_fields = none := rfl

/-- C9 amended: the mapping returned by `evaluate_rule_with_trace` always
carries `matched`, `field_results` and `summary`; it carries `failed_fields`
exactly when the rule declares at least one input condition, while the
empty-inputs early return omits that key. -/
theorem C9_trace_key_shape (logic : RuleLogic) (context : Ctx) :
    (logic.inputs = [] →
      evaluate_rule_with_trace logic context =
        ⟨true, [], none, ("Rule has no input conditions").data⟩) ∧
    (logic.inputs ≠ [] →
      (evaluate_rule_with_trace logic context).failed_fields.isSome = true) := by
  constructor
  · intro h
    rw [evaluate_rule_with_trace, if_pos h]
  · intro h
    rw [trace_failed_fields_eq logic context h]
    rfl

/-- Witness for C9 at an empty-inputs rule and a one-input rule. -/
theorem C9_trace_key_shape_witness :
    evaluate_rule_with_trace ⟨[], []⟩ [] =
      ⟨true, [], none, ("Rule has no input conditions").data⟩ ∧
    (evaluate_rule_with_trace ⟨[(("a").data, Value.vStr ("1").data)], []⟩ []).failed_fields.isSome = true :=
  ⟨(C9_trace_key_shape ⟨[], []⟩ []).1 rfl,
   (C9_trace_key_shape ⟨[(("a").data, Value.vStr ("1").data)], []⟩ []).2 (by decide)⟩

/-- C5 counterexample: in a rule with the non-blank condition `>5` on field
`a` and a blank condition on field `b`, with `b` absent from the context,
the rule still matches and the trace entry for `b` carries the wildcard
reason — the claim as stated demands `matched == false` and the
"input missing in context" reason for every absent declared field. -/
theorem C5_blank_absent_field_counterexample :
    ctxHas [(("a").data, Value.vInt 6)] ("b").data = false ∧
    (evaluate_rule_with_trace
        ⟨[(("a").data, Value.vStr (">5").data), (("b").data, Value.vStr [])], []⟩
        [(("a").data, Value.vInt 6)]).matched = true ∧
    (evaluate_rule_with_trace
        ⟨[(("a").data, Value.vStr (">5").data), (("b").data, Value.vStr [])], []⟩
        [(("a").data, Value.vInt 6)]).field_results.get? 1 =
      some ⟨("b").data, [], Value.vNull, true, wildcardMsg⟩ := by
  decide

/-- C5 amended: if a declared input field whose condition is non-blank after
trimming is absent from the context, the rule does not match, that field's
trace entry carries reason "input missing in context", and evaluation does
not short-circuit — `field_results` keeps one entry per declared field. -/
theorem C5_missing_field_no_shortcircuit (logic : RuleLogic) (context : Ctx)
    (i : Nat) (k : Chars) (c : Value)
    (h : logic.inputs.get? i = some (k, c))
    (hnb : pyStrip (condText c) ≠ [])
    (hmiss : ctxHas context k = false) :
    (evaluate_rule_with_trace logic context).matched = false ∧
    (evaluate_rule_with_trace logic context).field_results.get? i =
      some ⟨k, condText c, Value.vNull, false, ("input missing in context").data⟩ ∧
    (evaluate_rule_with_trace logic context).field_results.length = logic.inputs.length := by
  have hne : logic.inputs ≠ [] := by
    intro he
    rw [he] at h
    simp at h
  have hentry : fieldEntry context k c =
      ⟨k, condText c, Value.vNull, false, ("input missing in context").data⟩ := by
    rw [fieldEntry]
    simp [if_neg hnb, hmiss]
  refine ⟨?_, ?_, ?_⟩
  · rw [trace_matched_eq logic context hne]
    have hmem : fieldEntry context k c ∈
        logic.inputs.map (fun p => fieldEntry context p.1 p.2) := by
      have := List.get?_mem h
      exact List.mem_map_of_mem (fun p => fieldEntry context p.1 p.2) this
    cases hall : (logic.inputs.map (fun p => fieldEntry context p.1 p.2)).all
        (fun e => e.matched)
    · rfl
    · have := List.all_eq_true.mp hall _ hmem
      rw [hentry] at this
      simp at this
  · rw [trace_field_results_eq logic context hne]
    rw [List.get?_map, h]
    simp [hentry]
  · rw [trace_field_results_eq logic context hne, List.length_map]

/-- Witness for C5 at a two-field rule whose second field is absent. -/
theorem C5_missing_field_no_shortcircuit_witness :
    (evaluate_rule_with_trace
        ⟨[(("a").data, Value.vStr (">5").data), (("t").data, Value.vStr ("Gold").data)], []⟩
        [(("a").data, Value.vInt 6)]).matched = false ∧
    (evaluate_rule_with_trace
        ⟨[(("a").data, Value.vStr (">5").data), (("t").data, Value.vStr ("Gold").data)], []⟩
        [(("a").data, Value.vInt 6)]).field_results.get? 1 =
      some ⟨("t").data, ("Gold").data, Value.vNull, false, ("input missing in context").data⟩ ∧
    (evaluate_rule_with_trace
        ⟨[(("a").data, Value.vStr (">5").data), (("t").data, Value.vStr ("Gold").data)], []⟩
        [(("a").data, Value.vInt 6)]).field_results.length = 2 :=
  C5_missing_field_no_shortcircuit
    ⟨[(("a").data, Value.vStr (">5").data), (("t").data, Value.vStr ("Gold").data)], []⟩
    [(("a").data, Value.vInt 6)] 1 ("t").data (Value.vStr ("Gold").data)
    (by decide) (by decide) (by decide)

/-- Writing a key stores its value. -/
theorem ctxGet?_set_eq (d : Ctx) (k : Chars) (v : Value) :
    ctxGet? (ctxSet d k v) k = some v := by
  induction d with
  | nil => simp [ctxSet, ctxGet?]
  | cons p rest ih =>
    obtain ⟨k1, v1⟩ := p
    rw [ctxSet]
    by_cases hk : k1 = k
    · simp [hk, ctxGet?]
    · simp [hk, ctxGet?, ih]

/-- Writing a key leaves every other key unchanged. -/
theorem ctxGet?_set_ne (d : Ctx) (k key : Chars) (v : Value) (h : key ≠ k) :
    ctxGet? (ctxSet d k v) key = ctxGet? d key := by
  induction d with
  | nil =>
    rw [ctxSet, ctxGet?, ctxGet?, if_neg (Ne.symm h)]
    rfl
  | cons p rest ih =>
    obtain ⟨k1, v1⟩ := p
    rw [ctxSet]
    by_cases hk : k1 = k
    · subst hk
      rw [if_pos rfl, ctxGet?, ctxGet?, if_neg (Ne.symm h), if_neg (Ne.symm h)]
    · rw [if_neg hk, ctxGet?, ctxGet?]
      by_cases h1 : k1 = key
      · rw [if_pos h1, if_pos h1]
      · rw [if_neg h1, if_neg h1, ih]

/-- The last value written for a key in an association list, if any. -/
def lastVal (l : Ctx) (k : Chars) : Option Value :=
  ((l.filter (fun p => p.1 = k)).map (fun p => p.2)).getLast?

/-- Looking a key up after folding a sequence of writes over a dictionary
yields the last written value for that key, or falls back to the original
dictionary: Python's `dict.update` is last-write-wins. -/
theorem ctxGet?_foldl_set (l : Ctx) (d : Ctx) (k : Chars) :
    ctxGet? (l.foldl (fun a p => ctxSet a p.1 p.2) d) k =
      (match lastVal l k with
       | some v => some v
       | none => ctxGet? d k) := by
  induction l using List.reverseRecOn generalizing d with
  | nil => simp [lastVal]
  | append_singleton l0 p ih =>
    rw [List.foldl_append]
    simp only [List.foldl_cons, List.foldl_nil]
    by_cases hk : p.1 = k
    · rw [hk, ctxGet?_set_eq]
      simp [lastVal, List.filter_append, hk]
    · rw [ctxGet?_set_ne _ _ _ _ (fun he => hk he.symm), ih]
      have hl : lastVal (l0 ++ [p]) k = lastVal l0 k := by
        simp [lastVal, List.filter_append, hk]
      rw [hl]

/-- The scanning loop under COLLECT_ALL never stops early: the matched
rules are exactly the matching rules, in order. -/
theorem scanRules_collect_acc (context : Ctx) (detailed : Bool) :
    ∀ (rules acc : List Rule) (tr : List TraceRow),
      (scanRules HitPolicy.COLLECT_ALL context detailed rules acc tr).1 =
        acc ++ rules.filter (fun r => evaluate_rule r.logic context) := by
  intro rules
  induction rules with
  | nil => intro acc tr; simp [scanRules]
  | cons r rest ih =>
    intro acc tr
    rw [scanRules]
    simp only [List.filter_cons]
    cases hm : (evaluate_rule_with_trace r.logic context).matched
    · simp only [hm, evaluate_rule, Bool.false_eq_true, if_false, ite_false]
      rw [ih]
      simp [evaluate_rule, hm]
    · simp only [hm, evaluate_rule, eq_self_iff_true, if_true, ite_true]
      have h1 : ¬(HitPolicy.COLLECT_ALL = HitPolicy.FIRST_HIT) := by decide
      have h2 : ¬(HitPolicy.COLLECT_ALL = HitPolicy.UNIQUE ∧
          1 < (acc ++ [r]).length) := by
        intro hc
        exact absurd hc.1 (by decide)
      rw [if_neg h1, if_neg h2, ih]
      simp [evaluate_rule, hm]

/-- The scanning loop under UNIQUE stops as soon as two matches are
collected: starting from at most one collected match it returns the first
two matching rules. -/
theorem scanRules_unique_acc (context : Ctx) (detailed : Bool) :
    ∀ (rules acc : List Rule), acc.length ≤ 1 → ∀ tr : List TraceRow,
      (scanRules HitPolicy.UNIQUE context detailed rules acc tr).1 =
        (acc ++ rules.filter (fun r => evaluate_rule r.logic context)).take 2 := by
  intro rules
  induction rules with
  | nil =>
    intro acc hacc tr
    rw [scanRules]
    simp only [List.filter_nil, List.append_nil]
    exact (List.take_all_of_le (Nat.le_trans hacc (by norm_num))).symm
  | cons r rest ih =>
    intro acc hacc tr
    rw [scanRules]
    cases hm : (evaluate_rule_with_trace r.logic context).matched
    · simp only [hm, Bool.false_eq_true, if_false, ite_false]
      rw [ih acc hacc]
      have hfc : List.filter (fun r => evaluate_rule r.logic context) (r :: rest) =
          rest.filter (fun r => evaluate_rule r.logic context) := by
        rw [List.filter_cons]
        simp [evaluate_rule, hm]
      rw [hfc]
    · simp only [hm, eq_self_iff_true, if_true, ite_true]
      have h1 : ¬(HitPolicy.UNIQUE = HitPolicy.FIRST_HIT) := by decide
      rw [if_neg h1]
      have hfc : List.filter (fun r => evaluate_rule r.logic context) (r :: rest) =
          r :: rest.filter (fun r => evaluate_rule r.logic context) := by
        rw [List.filter_cons]
        simp [evaluate_rule, hm]
      rcases Nat.lt_or_ge acc.length 1 with hl | hl
      · have hz : acc = [] := List.length_eq_zero.mp (Nat.lt_one_iff.mp hl)
        subst hz
        have h2 : ¬(True ∧ 1 < ([] ++ [r] : List Rule).length) := by
          intro hc
          have := hc.2
          simp at this
        rw [if_neg h2, ih ([] ++ [r]) (by simp), hfc]
        simp
      · have hone : acc.length = 1 := Nat.le_antisymm hacc hl
        have h2 : True ∧ 1 < (acc ++ [r]).length := by
          refine ⟨trivial, ?_⟩
          simp [hone]
        rw [if_pos h2, hfc]
        have hlen2 : (acc ++ [r]).length = 2 := by simp [hone]
        have hassoc : acc ++ r :: rest.filter (fun r => evaluate_rule r.logic context) =
            (acc ++ [r]) ++ rest.filter (fun r => evaluate_rule r.logic context) := by
          simp
        rw [hassoc]
        have htake : List.take 2
            ((acc ++ [r]) ++ rest.filter (fun r => evaluate_rule r.logic context)) =
            acc ++ [r] := by
          rw [← hlen2]
          exact List.take_left _ _
        rw [htake]

/-- The COLLECT_ALL merge looked up at a key is the last value written for
that key across the joined outputs of the merged rules. -/
theorem ctxGet?_merge (L : List Ctx) (k : Chars) :
    ctxGet? (L.foldl (fun acc outs => ctxUpdate acc outs) []) k = lastVal L.join k := by
  have h1 : L.foldl (fun acc outs => ctxUpdate acc outs) [] =
      (L.join).foldl (fun a p => ctxSet a p.1 p.2) [] := by
    rw [List.foldl_join]
    rfl
  rw [h1, ctxGet?_foldl_set]
  cases lastVal L.join k <;> simp [ctxGet?]

/-- C1 counterexample: under UNIQUE with three simultaneously-matching
rules the scan stops after the second match, so the id of the third
matching rule is absent from `matched_rule_ids` — the claim as stated
demands the ids of all matching rules. -/
theorem C1_unique_three_matches_counterexample :
    (List.filter (fun r => evaluate_rule r.logic [])
        ([⟨("r1").data, 0, ⟨[], []⟩⟩, ⟨("r2").data, 0, ⟨[], []⟩⟩,
         ⟨("r3").data, 0, ⟨[], []⟩⟩] : List Rule)).length = 3 ∧
    (DecisionEngine.evaluate_rules HitPolicy.UNIQUE
        ([⟨("r1").data, 0, ⟨[], []⟩⟩, ⟨("r2").data, 0, ⟨[], []⟩⟩,
         ⟨("r3").data, 0, ⟨[], []⟩⟩] : List Rule) [] false).matched_rule_ids =
      [("r1").data, ("r2").data] ∧
    ("r3").data ∉ (DecisionEngine.evaluate_rules HitPolicy.UNIQUE
        ([⟨("r1").data, 0, ⟨[], []⟩⟩, ⟨("r2").data, 0, ⟨[], []⟩⟩,
         ⟨("r3").data, 0, ⟨[], []⟩⟩] : List Rule) [] false).matched_rule_ids := by
  decide

/-- C1 amended: under UNIQUE, whenever at least two rules match the
context, `_evaluate_rules` returns an empty result map, the sentinel
rule_id "CONFLICT" and a non-null error message, and `matched_rule_ids`
holds the ids of the first two matching rules in priority order (the scan
breaks at the second match, so later matching rules are not listed). -/
theorem C1_unique_conflict_first_two (rules : List Rule) (context : Ctx)
    (detailed : Bool)
    (h : 2 ≤ (rules.filter (fun r => evaluate_rule r.logic context)).length) :
    (DecisionEngine.evaluate_rules HitPolicy.UNIQUE rules context detailed).result = [] ∧
    (DecisionEngine.evaluate_rules HitPolicy.UNIQUE rules context detailed).rule_id =
      some ("CONFLICT").data ∧
    (DecisionEngine.evaluate_rules HitPolicy.UNIQUE rules context detailed).error =
      some uniqueErrMsg ∧
    (DecisionEngine.evaluate_rules HitPolicy.UNIQUE rules context detailed).matched_rule_ids =
      ((rules.filter (fun r => evaluate_rule r.logic context)).take 2).map
        (fun r => r.id) := by
  have hscan := scanRules_unique_acc context detailed rules [] (by simp) []
  simp only [List.nil_append] at hscan
  rcases hms : rules.filter (fun r => evaluate_rule r.logic context) with _ | ⟨a, _ | ⟨b, tl⟩⟩
  · rw [hms] at h
    simp at h
  · rw [hms] at h
    simp at h
  · rw [hms] at hscan
    rw [DecisionEngine.evaluate_rules]
    simp only [hscan, hms, List.take_cons, List.take_nil, List.take]
    simp

/-- Witness for C1 at three wildcard rules. -/
theorem C1_unique_conflict_first_two_witness :
    (DecisionEngine.evaluate_rules HitPolicy.UNIQUE
        ([⟨("r1").data, 0, ⟨[], []⟩⟩, ⟨("r2").data, 0, ⟨[], []⟩⟩,
         ⟨("r3").data, 0, ⟨[], []⟩⟩] : List Rule) [] false).result = [] ∧
    (DecisionEngine.evaluate_rules HitPolicy.UNIQUE
        ([⟨("r1").data, 0, ⟨[], []⟩⟩, ⟨("r2").data, 0, ⟨[], []⟩⟩,
         ⟨("r3").data, 0, ⟨[], []⟩⟩] : List Rule) [] false).rule_id = some ("CONFLICT").data ∧
    (DecisionEngine.evaluate_rules HitPolicy.UNIQUE
        ([⟨("r1").data, 0, ⟨[], []⟩⟩, ⟨("r2").data, 0, ⟨[], []⟩⟩,
         ⟨("r3").data, 0, ⟨[], []⟩⟩] : List Rule) [] false).error = some uniqueErrMsg ∧
    (DecisionEngine.evaluate_rules HitPolicy.UNIQUE
        ([⟨("r1").data, 0, ⟨[], []⟩⟩, ⟨("r2").data, 0, ⟨[], []⟩⟩,
         ⟨("r3").data, 0, ⟨[], []⟩⟩] : List Rule) [] false).matched_rule_ids =
      ((List.filter (fun r => evaluate_rule r.logic [])
          ([⟨("r1").data, 0, ⟨[], []⟩⟩, ⟨("r2").data, 0, ⟨[], []⟩⟩,
           ⟨("r3").data, 0, ⟨[], []⟩⟩] : List Rule)).take 2).map (fun r => r.id) :=
  C1_unique_conflict_first_two
    ([⟨("r1").data, 0, ⟨[], []⟩⟩, ⟨("r2").data, 0, ⟨[], []⟩⟩,
     ⟨("r3").data, 0, ⟨[], []⟩⟩] : List Rule) [] false (by decide)

/-- C2 counterexample: under COLLECT_ALL with exactly one matching rule the
engine still reports the sentinel rule_id "MULTIPLE" instead of the single
matching rule's id demanded by the claim. -/
theorem C2_collect_all_single_match_counterexample :
    (List.filter (fun r => evaluate_rule r.logic [])
        ([⟨("r1").data, 0, ⟨[], [(("x").data, Value.vInt 1)]⟩⟩] : List Rule)).length = 1 ∧
    (DecisionEngine.evaluate_rules HitPolicy.COLLECT_ALL
        ([⟨("r1").data, 0, ⟨[], [(("x").data, Value.vInt 1)]⟩⟩] : List Rule)
        [] false).rule_id = some ("MULTIPLE").data ∧
    (DecisionEngine.evaluate_rules HitPolicy.COLLECT_ALL
        ([⟨("r1").data, 0, ⟨[], [(("x").data, Value.vInt 1)]⟩⟩] : List Rule)
        [] false).rule_id ≠ some ("r1").data := by
  decide

/-- C2 amended: under COLLECT_ALL the engine scans all rules; with no match
it returns an empty result with null rule_id and no error; with at least
one match it merges the outputs of all matching rules in priority order
with later matches overwriting earlier ones on key collision (the result at
each key is the last value written for it across the matched outputs),
reports all matching rule ids, and returns rule_id "MULTIPLE" whenever any
rule matched — even when exactly one did. -/
theorem C2_collect_all_merge (rules : List Rule) (context : Ctx) (detailed : Bool) :
    (rules.filter (fun r => evaluate_rule r.logic context) = [] →
      (DecisionEngine.evaluate_rules HitPolicy.COLLECT_ALL rules context detailed).result = [] ∧
      (DecisionEngine.evaluate_rules HitPolicy.COLLECT_ALL rules context detailed).rule_id = none ∧
      (DecisionEngine.evaluate_rules HitPolicy.COLLECT_ALL rules context detailed).matched_rule_ids = [] ∧
      (DecisionEngine.evaluate_rules HitPolicy.COLLECT_ALL rules context detailed).error = none) ∧
    (rules.filter (fun r => evaluate_rule r.logic context) ≠ [] →
      (DecisionEngine.evaluate_rules HitPolicy.COLLECT_ALL rules context detailed).rule_id =
        some ("MULTIPLE").data ∧
      (DecisionEngine.evaluate_rules HitPolicy.COLLECT_ALL rules context detailed).error = none ∧
      (DecisionEngine.evaluate_rules HitPolicy.COLLECT_ALL rules context detailed).matched_rule_ids =
        (rules.filter (fun r => evaluate_rule r.logic context)).map (fun r => r.id) ∧
      ∀ k : Chars,
        ctxGet? (DecisionEngine.evaluate_rules HitPolicy.COLLECT_ALL rules context detailed).result k =
          lastVal (((rules.filter (fun r => evaluate_rule r.logic context)).map
            (fun r => r.logic.outputs)).join) k) := by
  have hscan := scanRules_collect_acc context detailed rules [] []
  simp only [List.nil_append] at hscan
  constructor
  · intro hempty
    rw [hempty] at hscan
    simp [DecisionEngine.evaluate_rules, hscan]
  · intro hne
    rcases hms : rules.filter (fun r => evaluate_rule r.logic context) with _ | ⟨a, tl⟩
    · exact absurd hms hne
    · rw [hms] at hscan
      rw [DecisionEngine.evaluate_rules]
      simp only [hscan]
      have h1 : ¬(HitPolicy.COLLECT_ALL = HitPolicy.UNIQUE ∧ 1 < (a :: tl).length) := by
        intro hc
        exact absurd hc.1 (by decide)
      have h2 : HitPolicy.COLLECT_ALL = HitPolicy.COLLECT_ALL := rfl
      simp only [if_neg h1, if_pos h2, hms]
      refine ⟨by simp, by simp, by simp, ?_⟩
      intro k
      have hfm : (a :: tl).foldl (fun acc r => ctxUpdate acc r.logic.outputs) [] =
          ((a :: tl).map (fun r => r.logic.outputs)).foldl
            (fun acc outs => ctxUpdate acc outs) [] := by
        rw [List.foldl_map]
      rw [hfm, if_pos (show True from trivial)]
      dsimp only
      rw [ctxGet?_merge]

/-- Witness for C2 at the spec's own promotion example: two matching rules
with overlapping `label` outputs; the merged label is the later rule's. -/
theorem C2_collect_all_merge_witness :
    (DecisionEngine.evaluate_rules HitPolicy.COLLECT_ALL
        ([⟨("r1").data, 0, ⟨[], [(("discount_pct").data, Value.vInt 10),
                                 (("label").data, Value.vStr ("A").data)]⟩⟩,
          ⟨("r2").data, 0, ⟨[], [(("shipping").data, Value.vStr ("Free").data),
                                 (("label").data, Value.vStr ("B").data)]⟩⟩] : List Rule)
        [] false).rule_id = some ("MULTIPLE").data ∧
    ctxGet? (DecisionEngine.evaluate_rules HitPolicy.COLLECT_ALL
        ([⟨("r1").data, 0, ⟨[], [(("discount_pct").data, Value.vInt 10),
                                 (("label").data, Value.vStr ("A").data)]⟩⟩,
          ⟨("r2").data, 0, ⟨[], [(("shipping").data, Value.vStr ("Free").data),
                                 (("label").data, Value.vStr ("B").data)]⟩⟩] : List Rule)
        [] false).result ("label").data = some (Value.vStr ("B").data) := by
  have h := (C2_collect_all_merge
    ([⟨("r1").data, 0, ⟨[], [(("discount_pct").data, Value.vInt 10),
                             (("label").data, Value.vStr ("A").data)]⟩⟩,
      ⟨("r2").data, 0, ⟨[], [(("shipping").data, Value.vStr ("Free").data),
                             (("label").data, Value.vStr ("B").data)]⟩⟩] : List Rule)
    [] false).2 (by decide)
  refine ⟨h.1, ?_⟩
  rw [h.2.2.2 ("label").data]
  decide

/-- A string containing an explicit `..` at a split point passes the
dispatcher's substring guard. -/
theorem hasDotDot_append (a b : Chars) : hasDotDot (a ++ '.' :: '.' :: b) = true := by
  induction a with
  | nil => simp [hasDotDot]
  | cons c a2 ih =>
    cases ha : a2 ++ '.' :: '.' :: b with
    | nil => simp at ha
    | cons c2 r2 =>
      rw [List.cons_append, ha, hasDotDot, ← ha, ih]
      simp

/-- A successful first-occurrence split reconstructs the string. -/
theorem splitDotDot_append : ∀ (cs a b : Chars), splitDotDot cs = some (a, b) →
    cs = a ++ '.' :: '.' :: b := by
  intro cs
  induction cs with
  | nil => intro a b h; simp [splitDotDot] at h
  | cons c rest ih =>
    intro a b h
    cases rest with
    | nil =>
      rw [show splitDotDot [c] = none from rfl] at h
      cases h
    | cons c2 r2 =>
      rw [splitDotDot] at h
      by_cases hc : c = '.' ∧ c2 = '.'
      · rw [if_pos hc] at h
        obtain ⟨rfl, rfl⟩ := Prod.mk.injEq .. ▸ (Option.some.injEq .. ▸ h :
          (([] : Chars), r2) = (a, b))
        obtain ⟨h1, h2⟩ := hc
        subst h1
        subst h2
        rfl
      · rw [if_neg hc] at h
        cases hs : splitDotDot (c2 :: r2) with
        | none => rw [hs] at h; simp at h
        | some p =>
          obtain ⟨p1, p2⟩ := p
          rw [hs] at h
          simp only [Option.map, Option.bind, Option.some.injEq, Prod.mk.injEq] at h
          obtain ⟨h1, h2⟩ := h
          subst h2
          rw [← h1, List.cons_append]
          rw [ih p1 p2 hs]

/-- The opening character of a matched signed-number literal is a sign, a
digit, or a dot. -/
theorem sigNum_head (c : Char) (rest : Chars) (d : Dec)
    (h : sigNum? (c :: rest) = some d) :
    c = '+' ∨ c = '-' ∨ isDigitC c = true ∨ c = '.' := by
  by_cases h1 : c = '+'
  · exact Or.inl h1
  by_cases h2 : c = '-'
  · exact Or.inr (Or.inl h2)
  by_cases h3 : isDigitC c = true
  · exact Or.inr (Or.inr (Or.inl h3))
  refine Or.inr (Or.inr (Or.inr ?_))
  have hbody : sigNumBody (c :: rest) = some d := by
    rw [show sigNum? (c :: rest) =
      (if c = '+' then sigNumBody rest
       else if c = '-' then (sigNumBody rest).map Dec.neg
       else sigNumBody (c :: rest)) from rfl] at h
    rw [if_neg h1, if_neg h2] at h
    exact h
  have htw : (c :: rest).takeWhile isDigitC = [] := by
    simp [List.takeWhile_cons, h3]
  have hdw : (c :: rest).dropWhile isDigitC = c :: rest := by
    simp [List.dropWhile_cons, h3]
  rw [sigNumBody, htw, hdw] at hbody
  split at hbody
  · next heq => cases heq
  · next r2 heq => exact (List.cons.injEq .. ▸ heq :
      c = '.' ∧ rest = r2).1
  · next heq hne => cases hbody

/-- Decomposition of a successful anchored range match. -/
theorem rangeParts_structure (cs : Chars) (mn mx : Dec)
    (h : rangeParts cs = some (mn, mx)) :
    ∃ a b : Chars, cs = a ++ '.' :: '.' :: b ∧ sigNum? a = some mn ∧ sigNum? b = some mx := by
  rw [rangeParts] at h
  split at h
  · next a b hs =>
    split at h
    · next d1 d2 h1 h2 =>
      refine ⟨a, b, splitDotDot_append cs a b hs, ?_, ?_⟩
      · rw [h1]
        cases h
        rfl
      · rw [h2]
        cases h
        rfl
    · next => cases h
  · next => cases h

/-- A condition that matches the range grammar contains `..`. -/
theorem hasDotDot_of_rangeParts (cs : Chars) (mn mx : Dec)
    (h : rangeParts cs = some (mn, mx)) : hasDotDot cs = true := by
  obtain ⟨a, b, rfl, _, _⟩ := rangeParts_structure cs mn mx h
  exact hasDotDot_append a b

/-- Uppercasing does not move characters below the lowercase range. -/
theorem upChar_eq_self_of_lt (c : Char) (h : c.toNat < 97) : upChar c = c := by
  rw [upChar, if_neg]
  omega

/-- A string whose first character does not uppercase to `C` fails the CP
prefix guard. -/
theorem startsCP_false_of_head (c : Char) (t : Chars)
    (h : ¬(upChar c).toNat = 67) : startsCP (c :: t) = false := by
  cases t with
  | nil => rfl
  | cons c2 t2 => simp [startsCP, h]

/-- A condition that matches the range grammar does not carry the CP
prefix: it opens with a sign, a digit, or a dot. -/
theorem startsCP_of_rangeParts (cs : Chars) (mn mx : Dec)
    (h : rangeParts cs = some (mn, mx)) : startsCP cs = false := by
  obtain ⟨a, b, rfl, ha, _⟩ := rangeParts_structure cs mn mx h
  cases a with
  | nil => rfl
  | cons c a2 =>
    rw [List.cons_append]
    rcases sigNum_head c a2 mn ha with h1 | h1 | h1 | h1
    · subst h1
      exact startsCP_false_of_head _ _ (by decide)
    · subst h1
      exact startsCP_false_of_head _ _ (by decide)
    · refine startsCP_false_of_head _ _ ?_
      have hle : c.toNat ≤ 57 := by
        simp [isDigitC] at h1
        omega
      rw [upChar_eq_self_of_lt c (by omega)]
      omega
    · subst h1
      exact startsCP_false_of_head _ _ (by decide)

/-- The dispatcher's view of a plain string condition is the stripped
string. -/
theorem condStr_vStr (s : Chars) : condStr (Value.vStr s) = pyStrip s := by
  rw [condStr]
  by_cases h : s = []
  · subst h
    rfl
  · simp [pyTruthy, pyStr, h]

/-- C4: for a condition matching the range grammar with literals min and
max, evaluation of a numeric value is exactly the inclusive bounds check
min <= v <= max; and when min > max (inverted range) evaluation is false
for every input value and `validate_syntax` (here `syntax_valid`) rejects
the condition. -/
theorem C4_range_inclusive_bounds (s : Chars) (mn mx : Dec)
    (h : rangeParts (pyStrip s) = some (mn, mx)) :
    (Dec.toRat mn ≤ Dec.toRat mx →
      ∀ v : Dec, (evaluate_condition (Value.vStr s) (Value.vFloat v) = true ↔
        Dec.toRat mn ≤ Dec.toRat v ∧ Dec.toRat v ≤ Dec.toRat mx)) ∧
    (Dec.toRat mx < Dec.toRat mn →
      (∀ w : Value, evaluate_condition (Value.vStr s) w = false) ∧
      syntax_valid s = false) := by
  have hdd := hasDotDot_of_rangeParts (pyStrip s) mn mx h
  have hcp := startsCP_of_rangeParts (pyStrip s) mn mx h
  have hne : ¬(pyStrip s = []) := by
    intro he
    rw [he] at hdd
    simp [hasDotDot] at hdd
  have heval : ∀ w : Value, ¬(w = Value.vNull) →
      evaluate_condition (Value.vStr s) w = parse_range (pyStrip s) w := by
    intro w hw
    rw [evaluate_condition, evaluate_condition_with_reason]
    simp only [condStr_vStr]
    rw [if_neg hne, if_neg hw]
    simp only [hcp, hdd, Bool.false_eq_true, if_false, if_true, ite_false, ite_true]
    rw [h]
  constructor
  · intro _ v
    rw [heval (Value.vFloat v) (by simp), parse_range, h]
    simp only [pyFloat?]
    rw [Bool.and_eq_true, Dec.le_iff, Dec.le_iff]
  · intro hinv
    constructor
    · intro w
      by_cases hw : w = Value.vNull
      · subst hw
        rw [evaluate_condition, evaluate_condition_with_reason]
        simp only [condStr_vStr]
        rw [if_neg hne]
        simp
      · rw [heval w hw, parse_range, h]
        cases hf : pyFloat? w with
        | none => rfl
        | some x =>
          dsimp only
          by_contra hb
          rw [Bool.not_eq_false, Bool.and_eq_true, Dec.le_iff, Dec.le_iff] at hb
          linarith [hb.1, hb.2]
    · rw [syntax_valid]
      simp only [h]
      rw [Bool.not_eq_false']
      exact (Dec.lt_iff mx mn).mpr hinv

/-- Witness for C4 at the repo's own range examples: `10..50` contains 30,
`50..10` is inverted so it rejects 30 and fails validation. -/
theorem C4_range_inclusive_bounds_witness :
    evaluate_condition (Value.vStr ("10..50").data) (Value.vFloat ⟨30, 0⟩) = true ∧
    evaluate_condition (Value.vStr ("50..10").data) (Value.vInt 30) = false ∧
    syntax_valid ("50..10").data = false := by
  refine ⟨?_, ?_, ?_⟩
  · exact ((C4_range_inclusive_bounds ("10..50").data ⟨10, 0⟩ ⟨50, 0⟩ (by decide)).1
      (by norm_num [Dec.toRat, tenPow]) ⟨30, 0⟩).mpr
      (by norm_num [Dec.toRat, tenPow])
  · exact ((C4_range_inclusive_bounds ("50..10").data ⟨50, 0⟩ ⟨10, 0⟩ (by decide)).2
      (by norm_num [Dec.toRat, tenPow])).1 (Value.vInt 30)
  · exact ((C4_range_inclusive_bounds ("50..10").data ⟨50, 0⟩ ⟨10, 0⟩ (by decide)).2
      (by norm_num [Dec.toRat, tenPow])).2

/-- C7 counterexample: the ordinary string "Invoice" uppercases to an `IN`
prefix, so the dispatcher demands the IN grammar and
`evaluate_condition("Invoice", "Invoice")` is false — the claim as stated
promises literal self-equality for every string. -/
theorem C7_self_equality_counterexample :
    evaluate_condition (Value.vStr ("Invoice").data) (Value.vStr ("Invoice").data) = false := by
  decide

/-- C7 amended: for every trimmed nonempty string that does not enter the
operator grammars — no case-insensitive `CP` or `IN` prefix, no leading
comparison character, no `..` substring — the condition matches exactly the
string values whose text is literally equal to it: self-equality holds and
any other string value mismatches.  The condition text only ever flows into
string comparisons, never into any evaluator. -/
theorem C7_literal_equality (s : Chars)
    (hstrip : pyStrip s = s) (hne : s ≠ [])
    (hcp : startsCP s = false) (hdd : hasDotDot s = false)
    (hcmp : startsCmp s = false) (hin : startsIN s = false) :
    evaluate_condition (Value.vStr s) (Value.vStr s) = true ∧
    (∀ t : Chars, t ≠ s → evaluate_condition (Value.vStr s) (Value.vStr t) = false) := by
  have heval : ∀ t : Chars,
      evaluate_condition (Value.vStr s) (Value.vStr t) = decide (s = t) := by
    intro t
    rw [evaluate_condition, evaluate_condition_with_reason]
    simp only [condStr_vStr, hstrip]
    rw [if_neg hne, if_neg (by simp : ¬(Value.vStr t = Value.vNull))]
    simp only [hcp, hdd, hcmp, hin, Bool.false_eq_true, if_false, ite_false]
    rfl
  constructor
  · rw [heval s]
    simp
  · intro t ht
    rw [heval t]
    simp
    exact fun he => ht he.symm

/-- Witness for C7 at a code-like injection string (no quotes, which the IN
grammar would capture): self-equality holds, any other value mismatches. -/
theorem C7_literal_equality_witness :
    evaluate_condition (Value.vStr ("__import__(os).system(rm -rf)").data)
      (Value.vStr ("__import__(os).system(rm -rf)").data) = true ∧
    evaluate_condition (Value.vStr ("__import__(os).system(rm -rf)").data)
      (Value.vStr ("anything_else").data) = false :=
  ⟨(C7_literal_equality ("__import__(os).system(rm -rf)").data
      (by decide) (by decide) (by decide) (by decide) (by decide) (by decide)).1,
   (C7_literal_equality ("__import__(os).system(rm -rf)").data
      (by decide) (by decide) (by decide) (by decide) (by decide) (by decide)).2
      ("anything_else").data (by decide)⟩

/-- Unfolded dispatch of `evaluate_condition` on a non-blank string
condition and a non-null value: the matched flag is exactly the selected
operator's verdict, with malformed operator syntax resolving to false. -/
theorem eval_dispatch (s : Chars) (v : Value) (hne : ¬(pyStrip s = []))
    (hv : ¬(v = Value.vNull)) :
    evaluate_condition (Value.vStr s) v =
      (if startsCP (pyStrip s) then parse_cp_operator (pyStrip s) v
       else if hasDotDot (pyStrip s) then
         (match rangeParts (pyStrip s) with
          | none => false
          | some _ => parse_range (pyStrip s) v)
       else if startsCmp (pyStrip s) then
         (match cmpParse (pyStrip s) with
          | none => false
          | some _ => parse_comparison (pyStrip s) v)
       else if startsIN (pyStrip s) then
         (match inBody? (pyStrip s) with
          | none => false
          | some _ => parse_in_operator (pyStrip s) v)
       else
         (match numericVal? v with
          | some val =>
            (match parseFloatChars (pyStrip s) with
             | some q => Dec.eq q val
             | none => decide (pyStrip s = pyStr v))
          | none => decide (pyStrip s = pyStr v))) := by
  rw [evaluate_condition, evaluate_condition_with_reason]
  simp only [condStr_vStr]
  rw [if_neg hne, if_neg hv]
  cases hcp : startsCP (pyStrip s)
  case true => simp [hcp]
  case false =>
  simp only [hcp, Bool.false_eq_true, if_false, ite_false]
  cases hdd : hasDotDot (pyStrip s)
  case true =>
    simp only [hdd, if_true, ite_true]
    cases hr : rangeParts (pyStrip s) <;> simp [hr]
  case false =>
  simp only [hdd, Bool.false_eq_true, if_false, ite_false]
  cases hcm : startsCmp (pyStrip s)
  case true =>
    simp only [hcm, if_true, ite_true]
    cases hc : cmpParse (pyStrip s) <;> simp [hc]
  case false =>
  simp only [hcm, Bool.false_eq_true, if_false, ite_false]
  cases hin : startsIN (pyStrip s)
  case true =>
    simp only [hin, if_true, ite_true]
    cases hb : inBody? (pyStrip s) <;> simp [hb]
  case false =>
  simp only [hin, Bool.false_eq_true, if_false, ite_false]
  cases hn : numericVal? v
  case none => simp [hn]
  case some val =>
    simp only [hn]
    cases hf : parseFloatChars (pyStrip s) <;> simp [hf]

/-- The quoted-literal scan finds nothing in a quote-free string. -/
theorem findQuotedF_nil (fuel : Nat) :
    ∀ cs : Chars, (∀ c ∈ cs, ¬(c = '\'' ∨ c = '"')) → findQuotedF fuel cs = [] := by
  induction fuel with
  | zero => intro cs _; rfl
  | succ n ih =>
    intro cs h
    cases cs with
    | nil => rfl
    | cons c rest =>
      rw [findQuotedF, if_neg (h c (List.mem_cons_self c rest))]
      exact ih rest (fun c2 hc2 => h c2 (List.mem_cons_of_mem c hc2))

/-- Every character of a matched `IN (...)` body occurs in the condition. -/
theorem inBody?_subset (cs inner : Chars) (h : inBody? cs = some inner) :
    ∀ c ∈ inner, c ∈ cs := by
  rw [inBody?.eq_def] at h
  split at h
  next a b rest =>
    split at h
    next hab =>
      have hsub1 : ∀ c ∈ rest.dropWhile isPySpace, c ∈ rest :=
        fun c hc => (List.dropWhile_sublist isPySpace).subset hc
      split at h
      next r2 hdw =>
        have hsub2 : ∀ c ∈ r2, c ∈ rest := by
          intro c hc
          exact hsub1 c (hdw ▸ List.mem_cons_of_mem '(' hc)
        split at h
        next body hrev =>
          split at h
          next => cases h
          next =>
            cases h
            intro c hc
            rw [List.mem_reverse] at hc
            have hmem : c ∈ r2.reverse := hrev ▸ List.mem_cons_of_mem ')' hc
            rw [List.mem_reverse] at hmem
            exact List.mem_cons_of_mem a (List.mem_cons_of_mem b (hsub2 c hmem))
        next body hrev =>
          split at h
          next => cases h
          next =>
            cases h
            intro c hc
            rw [List.mem_reverse] at hc
            have hmem : c ∈ r2.reverse :=
              hrev ▸ List.mem_cons_of_mem '\n' (List.mem_cons_of_mem ')' hc)
            rw [List.mem_reverse] at hmem
            exact List.mem_cons_of_mem a (List.mem_cons_of_mem b (hsub2 c hmem))
        next => cases h
      next => cases h
    next => cases h
  next => cases h

/-- C6: `evaluate_condition_with_reason` is total by construction — the
embedding returns a (bool, reason) pair on every condition and every value,
mirroring the try/except guards of the source — and type-mismatched
operands resolve to false rather than raising: a value that `float()`
rejects (null, list, dict, non-numeric string) fails every range condition
and every comparison condition; a non-numeric non-null value (list, dict,
string) fails a numeric `IN (...)` condition (one with no quoted string
literals); and a list, dict or non-numeric string never satisfies a
numeric-literal equality condition. -/
theorem C6_type_mismatch_resolves_false :
    (∀ (s : Chars) (v : Value),
      startsCP (pyStrip s) = false → hasDotDot (pyStrip s) = true →
      pyFloat? v = none →
      evaluate_condition (Value.vStr s) v = false) ∧
    (∀ (s : Chars) (v : Value),
      startsCP (pyStrip s) = false → hasDotDot (pyStrip s) = false →
      startsCmp (pyStrip s) = true → pyFloat? v = none →
      evaluate_condition (Value.vStr s) v = false) ∧
    (∀ (s : Chars) (v : Value),
      startsCP (pyStrip s) = false → hasDotDot (pyStrip s) = false →
      startsCmp (pyStrip s) = false → startsIN (pyStrip s) = true →
      (∀ c ∈ pyStrip s, ¬(c = '\'' ∨ c = '"')) →
      numericVal? v = none → ¬(v = Value.vNull) →
      evaluate_condition (Value.vStr s) v = false) ∧
    (∀ (s : Chars) (q : Dec) (v : Value),
      startsCP (pyStrip s) = false → hasDotDot (pyStrip s) = false →
      startsCmp (pyStrip s) = false → startsIN (pyStrip s) = false →
      sigNum? (pyStrip s) = some q →
      ((∃ xs, v = Value.vList xs) ∨ (∃ xs, v = Value.vDict xs)) →
      evaluate_condition (Value.vStr s) v = false) ∧
    (∀ (s t : Chars) (q : Dec),
      startsCP (pyStrip s) = false → hasDotDot (pyStrip s) = false →
      startsCmp (pyStrip s) = false → startsIN (pyStrip s) = false →
      parseFloatChars (pyStrip s) = some q → parseFloatChars t = none →
      evaluate_condition (Value.vStr s) (Value.vStr t) = false) := by
  refine ⟨?_, ?_, ?_, ?_, ?_⟩
  · intro s v hcp hdd hf
    have hne : ¬(pyStrip s = []) := by
      intro he
      rw [he] at hdd
      simp [hasDotDot] at hdd
    by_cases hv : v = Value.vNull
    · subst hv
      rw [evaluate_condition, evaluate_condition_with_reason]
      simp only [condStr_vStr]
      rw [if_neg hne]
      simp
    · rw [eval_dispatch s v hne hv]
      simp only [hcp, hdd, Bool.false_eq_true, if_false, if_true, ite_false, ite_true]
      cases hr : rangeParts (pyStrip s) with
      | none => simp [hr]
      | some p =>
        simp only [hr]
        obtain ⟨mn, mx⟩ := p
        rw [parse_range, hr]
        simp [hf]
  · intro s v hcp hdd hcm hf
    have hne : ¬(pyStrip s = []) := by
      intro he
      rw [he] at hcm
      simp [startsCmp] at hcm
    by_cases hv : v = Value.vNull
    · subst hv
      rw [evaluate_condition, evaluate_condition_with_reason]
      simp only [condStr_vStr]
      rw [if_neg hne]
      simp
    · rw [eval_dispatch s v hne hv]
      simp only [hcp, hdd, hcm, Bool.false_eq_true, if_false, if_true, ite_false, ite_true]
      cases hc : cmpParse (pyStrip s) with
      | none => simp [hc]
      | some p =>
        simp only [hc]
        obtain ⟨op, limit⟩ := p
        rw [parse_comparison, hc]
        simp [hf]
  · intro s v hcp hdd hcm hin hnq hnum hv
    have hne : ¬(pyStrip s = []) := by
      intro he
      rw [he] at hin
      simp [startsIN] at hin
    rw [eval_dispatch s v hne hv]
    simp only [hcp, hdd, hcm, hin, Bool.false_eq_true, if_false, if_true, ite_false, ite_true]
    cases hb : inBody? (pyStrip s) with
    | none => simp [hb]
    | some inner =>
      simp only [hb]
      rw [parse_in_operator, hb, hnum]
      have hinner : ∀ c ∈ inner, ¬(c = '\'' ∨ c = '"') :=
        fun c hc => hnq c (inBody?_subset (pyStrip s) inner hb c hc)
      dsimp only
      have hq : findQuoted inner = [] := findQuotedF_nil inner.length inner hinner
      rw [hq]
      rfl
  · intro s q v hcp hdd hcm hin hsig hv
    have hne : ¬(pyStrip s = []) := by
      intro he
      rw [he] at hsig
      simp [sigNum?, sigNumBody] at hsig
    have hvn : ¬(v = Value.vNull) := by
      rcases hv with ⟨xs, rfl⟩ | ⟨xs, rfl⟩ <;> simp
    rw [eval_dispatch s v hne hvn]
    simp only [hcp, hdd, hcm, hin, Bool.false_eq_true, if_false, ite_false]
    have hnum : numericVal? v = none := by
      rcases hv with ⟨xs, rfl⟩ | ⟨xs, rfl⟩ <;> rfl
    rw [hnum]
    rcases hsp : pyStrip s with _ | ⟨c, t⟩
    · exact absurd hsp hne
    · rw [hsp] at hsig
      have hhead := sigNum_head c t q hsig
      rw [decide_eq_false]
      intro he
      rcases hv with ⟨xs, rfl⟩ | ⟨xs, rfl⟩
      · rw [show pyStr (Value.vList xs) = '[' :: (commaJoin (xs.map primRepr) ++ [']']) from rfl] at he
        have hc91 : c = '[' := (List.cons.injEq .. ▸ he).1
        rcases hhead with h1 | h1 | h1 | h1
        · rw [hc91] at h1
          exact absurd h1 (by decide)
        · rw [hc91] at h1
          exact absurd h1 (by decide)
        · rw [hc91] at h1
          exact absurd h1 (by decide)
        · rw [hc91] at h1
          exact absurd h1 (by decide)
      · rw [show pyStr (Value.vDict xs) = '\x7b' ::
          (commaJoin (xs.map (fun p => '\'' :: p.1 ++ '\'' :: ':' :: ' ' :: primRepr p.2)) ++ ['\x7d']) from rfl] at he
        have hc123 : c = '\x7b' := (List.cons.injEq .. ▸ he).1
        rcases hhead with h1 | h1 | h1 | h1
        · rw [hc123] at h1
          exact absurd h1 (by decide)
        · rw [hc123] at h1
          exact absurd h1 (by decide)
        · rw [hc123] at h1
          exact absurd h1 (by decide)
        · rw [hc123] at h1
          exact absurd h1 (by decide)
  · intro s t q hcp hdd hcm hin hfs hft
    have hne : ¬(pyStrip s = []) := by
      intro he
      rw [he] at hfs
      simp [parseFloatChars, pyStrip, floatBody] at hfs
    rw [eval_dispatch s (Value.vStr t) hne (by simp)]
    simp only [hcp, hdd, hcm, hin, Bool.false_eq_true, if_false, ite_false]
    rw [show numericVal? (Value.vStr t) = none from rfl]
    rw [decide_eq_false]
    intro he
    rw [show pyStr (Value.vStr t) = t from rfl] at he
    rw [he] at hfs
    rw [hfs] at hft
    cases hft

/-- Witness for C6: a string fails a range, a dict fails a comparison and a
numeric IN set, a list and a non-numeric string fail numeric equality. -/
theorem C6_type_mismatch_resolves_false_witness :
    evaluate_condition (Value.vStr ("1..5").data) (Value.vStr ("abc").data) = false ∧
    evaluate_condition (Value.vStr (">10").data) (Value.vDict []) = false ∧
    evaluate_condition (Value.vStr ("IN (1, 2, 3)").data)
      (Value.vDict [(("key").data, Prim.pStr ("val").data)]) = false ∧
    evaluate_condition (Value.vStr ("5").data) (Value.vList [Prim.pInt 1]) = false ∧
    evaluate_condition (Value.vStr ("5").data) (Value.vStr ("abc").data) = false :=
  ⟨C6_type_mismatch_resolves_false.1 ("1..5").data (Value.vStr ("abc").data)
      (by decide) (by decide) (by decide),
   C6_type_mismatch_resolves_false.2.1 (">10").data (Value.vDict [])
      (by decide) (by decide) (by decide) rfl,
   C6_type_mismatch_resolves_false.2.2.1 ("IN (1, 2, 3)").data
      (Value.vDict [(("key").data, Prim.pStr ("val").data)])
      (by decide) (by decide) (by decide) (by decide) (by decide) rfl (by decide),
   C6_type_mismatch_resolves_false.2.2.2.1 ("5").data ⟨5, 0⟩ (Value.vList [Prim.pInt 1])
      (by decide) (by decide) (by decide) (by decide) (by decide)
      (Or.inl ⟨[Prim.pInt 1], rfl⟩),
   C6_type_mismatch_resolves_false.2.2.2.2 ("5").data ("abc").data ⟨5, 0⟩
      (by decide) (by decide) (by decide) (by decide) (by decide) (by decide)⟩

/-- Every attribute the external batch resolves is one of the batched
entries. -/
theorem resolveExternalBatch_keys (env : ResolverEnv) :
    ∀ (entries : List (Chars × RegEntry)) (vals : List (Chars × Value)),
      resolveExternalBatch env entries = .ok vals →
      ∀ k ∈ vals.map (fun p => p.1), k ∈ entries.map (fun p => p.1) := by
  intro entries
  induction entries with
  | nil =>
    intro vals h k hk
    rw [resolveExternalBatch] at h
    cases h
    simp at hk
  | cons p rest ih =>
    intro vals h k hk
    obtain ⟨k0, e0⟩ := p
    rw [resolveExternalBatch] at h
    cases ho : env.externalValue e0 with
    | error er => rw [ho] at h; cases h
    | ok o =>
      rw [ho] at h
      cases o with
      | none =>
        exact List.mem_cons_of_mem k0 (ih vals h k hk)
      | some v =>
        cases hr : resolveExternalBatch env rest with
        | error er => rw [hr] at h; simp [Except.map] at h
        | ok vs =>
          rw [hr] at h
          simp only [Except.map] at h
          cases h
          simp only [List.map_cons, List.mem_cons] at hk
          rcases hk with hk | hk
          · exact hk ▸ List.mem_cons_self k0 _
          · exact List.mem_cons_of_mem k0 (ih vs hr k hk)

/-- The per-attribute resolution loop only writes keys it was given, and
every deferred EXTERNAL entry is one of the given or already-deferred
keys. -/
theorem resolveLoop_ok (env : ResolverEnv) (target oid : Chars) :
    ∀ (pairs : List (Chars × RegEntry)) (hyd : Ctx) (unres : List Chars)
      (ext : List (Chars × RegEntry)) (hyd2 : Ctx) (unres2 : List Chars)
      (ext2 : List (Chars × RegEntry)),
      resolveLoop env target oid pairs hyd unres ext = .ok (hyd2, unres2, ext2) →
      (∀ k, ¬(k ∈ pairs.map (fun p => p.1)) → ctxGet? hyd2 k = ctxGet? hyd k) ∧
      (∀ k ∈ ext2.map (fun p => p.1),
        k ∈ ext.map (fun p => p.1) ∨ k ∈ pairs.map (fun p => p.1)) := by
  intro pairs
  induction pairs with
  | nil =>
    intro hyd unres ext hyd2 unres2 ext2 h
    rw [resolveLoop] at h
    cases h
    exact ⟨fun k _ => rfl, fun k hk => Or.inl hk⟩
  | cons p rest ih =>
    intro hyd unres ext hyd2 unres2 ext2 h
    obtain ⟨k0, e0⟩ := p
    rw [resolveLoop] at h
    by_cases hs : e0.resolution_strategy = Strategy.EXTERNAL
    · rw [if_pos hs] at h
      obtain ⟨hpres, hkeys⟩ := ih hyd unres (ext ++ [(k0, e0)]) hyd2 unres2 ext2 h
      constructor
      · intro k hk
        exact hpres k (fun hm => hk (List.mem_cons_of_mem k0 hm))
      · intro k hk
        rcases hkeys k hk with hk2 | hk2
        · simp only [List.map_append, List.mem_append] at hk2
          rcases hk2 with hk2 | hk2
          · exact Or.inl hk2
          · simp at hk2
            exact Or.inr (hk2 ▸ List.mem_cons_self k0 _)
        · exact Or.inr (List.mem_cons_of_mem k0 hk2)
    · rw [if_neg hs] at h
      cases hr : resolveSingle env target oid e0 with
      | error er => rw [hr] at h; cases h
      | ok o =>
        rw [hr] at h
        cases o with
        | none =>
          obtain ⟨hpres, hkeys⟩ := ih hyd (unres ++ [k0]) ext hyd2 unres2 ext2 h
          refine ⟨fun k hk => hpres k (fun hm => hk (List.mem_cons_of_mem k0 hm)), ?_⟩
          intro k hk
          rcases hkeys k hk with hk2 | hk2
          · exact Or.inl hk2
          · exact Or.inr (List.mem_cons_of_mem k0 hk2)
        | some v =>
          obtain ⟨hpres, hkeys⟩ := ih (ctxSet hyd k0 v) unres ext hyd2 unres2 ext2 h
          constructor
          · intro k hk
            have hk1 : ¬(k = k0) := fun he => hk (he ▸ List.mem_cons_self k0 _)
            have hk2 : ¬(k ∈ rest.map (fun p => p.1)) :=
              fun hm => hk (List.mem_cons_of_mem k0 hm)
            rw [hpres k hk2, ctxGet?_set_ne hyd k0 k v hk1]
          · intro k hk
            rcases hkeys k hk with hk2 | hk2
            · exact Or.inl hk2
            · exact Or.inr (List.mem_cons_of_mem k0 hk2)

/-- Folding writes for other keys over a dictionary leaves a key
unchanged. -/
theorem ctxGet?_foldl_not_mem (vals : List (Chars × Value)) (d : Ctx) (k : Chars)
    (h : ¬(k ∈ vals.map (fun p => p.1))) :
    ctxGet? (vals.foldl (fun a p => ctxSet a p.1 p.2) d) k = ctxGet? d k := by
  induction vals generalizing d with
  | nil => rfl
  | cons p rest ih =>
    rw [List.foldl_cons]
    have hk1 : ¬(k = p.1) := fun he => h (he ▸ List.mem_cons_self p.1 _)
    rw [ih (ctxSet d p.1 p.2) (fun hm => h (List.mem_cons_of_mem p.1 hm)),
      ctxGet?_set_ne d p.1 k p.2 hk1]

/-- Every key paired for resolution comes from the to_resolve set. -/
theorem pairsOf_keys (rows : List RegEntry) (tR : List Chars) (k : Chars)
    (hk : k ∈ (pairsOf rows tR).map (fun p => p.1)) : k ∈ tR := by
  rw [List.mem_map] at hk
  obtain ⟨p, hp, hfst⟩ := hk
  rw [pairsOf, List.mem_filterMap] at hp
  obtain ⟨a, ha, heq⟩ := hp
  cases hl : lookupRowOf rows a with
  | none => rw [hl] at heq; cases heq
  | some e =>
    rw [hl] at heq
    simp only [Option.map] at heq
    cases heq
    exact hfst ▸ ha

/-- C8: `hydrate_context` only resolves attributes that are absent, null,
or the empty string in the incoming context; every key of the incoming
context holding a non-null, non-empty-string value is present in the
returned context with its original value unchanged, under every
registry configuration and every resolution outcome. -/
theorem C8_hydrate_preserves_present (env : ResolverEnv)
    (object_type object_id : Chars) (required_attributes : List Chars)
    (context : Ctx) (k : Chars) (v : Value) (hyd : Ctx)
    (hget : ctxGet? context k = some v)
    (hv1 : ¬(v = Value.vNull)) (hv2 : ¬(v = Value.vStr []))
    (hok : hydrate_context env object_type object_id required_attributes context =
      .ok hyd) :
    ctxGet? hyd k = some v := by
  have hknot : ¬(k ∈ toResolveOf context (requiredOf required_attributes)) := by
    intro hmem
    have hpred := (List.mem_filter.mp hmem).2
    have hhas : ctxHas context k = true := by
      rw [ctxHas, hget]
      rfl
    have hgetv : ctxGet context k = v := by
      rw [ctxGet, hget]
      rfl
    simp [hhas, hgetv, hv1, hv2] at hpred
  rw [hydrate_context] at hok
  by_cases hoid : object_id = []
  · rw [if_pos hoid] at hok
    cases hok
    exact hget
  · rw [if_neg hoid] at hok
    cases hn : normalizeObjectType object_type with
    | error e =>
      rw [hn] at hok
      cases hok
    | ok target =>
      rw [hn] at hok
      dsimp only at hok
      by_cases htr : toResolveOf context (requiredOf required_attributes) = []
      · rw [if_pos htr] at hok
        cases hok
        exact hget
      · rw [if_neg htr] at hok
        by_cases hmiss : missingOf
            (rowsOf env target (toResolveOf context (requiredOf required_attributes)))
            (toResolveOf context (requiredOf required_attributes)) ≠ []
        · rw [if_pos hmiss] at hok
          cases hok
        · rw [if_neg hmiss] at hok
          cases hloop : resolveLoop env target object_id
              (pairsOf (rowsOf env target (toResolveOf context (requiredOf required_attributes)))
                (toResolveOf context (requiredOf required_attributes)))
              context [] [] with
          | error e =>
            rw [hloop] at hok
            cases hok
          | ok trip =>
            obtain ⟨hyd2, unres, ext⟩ := trip
            rw [hloop] at hok
            dsimp only at hok
            obtain ⟨hpres, hkeys⟩ :=
              resolveLoop_ok env target object_id _ context [] [] hyd2 unres ext hloop
            have hnotpairs : ¬(k ∈ (pairsOf
                (rowsOf env target (toResolveOf context (requiredOf required_attributes)))
                (toResolveOf context (requiredOf required_attributes))).map
                  (fun p => p.1)) :=
              fun hm => hknot (pairsOf_keys _ _ k hm)
            have hh2 : ctxGet? hyd2 k = some v := by
              rw [hpres k hnotpairs]
              exact hget
            by_cases hext : ext = []
            · rw [if_pos hext] at hok
              by_cases hu : unres ≠ []
              · rw [if_pos hu] at hok
                cases hok
              · rw [if_neg hu] at hok
                cases hok
                exact hh2
            · rw [if_neg hext] at hok
              cases hbatch : resolveExternalBatch env ext with
              | error e =>
                rw [hbatch] at hok
                cases hok
              | ok vals =>
                rw [hbatch] at hok
                dsimp only at hok
                have hvalkeys : ¬(k ∈ vals.map (fun p => p.1)) := by
                  intro hm
                  have h1 := resolveExternalBatch_keys env ext vals hbatch k hm
                  rcases hkeys k h1 with h2 | h2
                  · simp at h2
                  · exact hknot (pairsOf_keys _ _ k h2)
                split at hok
                · cases hok
                · cases hok
                  rw [ctxGet?_foldl_not_mem vals hyd2 k hvalkeys]
                  exact hh2

/-- Witness for C8: a context entry holding a non-empty value survives
hydration untouched (the attribute is required yet already present, so the
to_resolve set is empty and the context is returned as is). -/
theorem C8_hydrate_preserves_present_witness :
    ctxGet? [(("amount").data, Value.vInt 5)] ("amount").data = some (Value.vInt 5) :=
  C8_hydrate_preserves_present
    ⟨[], fun _ _ => Except.ok none, fun _ _ _ => Except.ok none,
     fun _ => Except.ok none⟩
    ("PO").data ("42").data [("amount").data]
    [(("amount").data, Value.vInt 5)]
    ("amount").data (Value.vInt 5)
    [(("amount").data, Value.vInt 5)]
    (by decide) (by decide) (by decide) rfl
